import Mathlib

/-!
Verification development for the SPH fluid-simulation kernel
(`src/js/physics-worker.js` and `src/js/sub-worker.js`).

The JavaScript kernel computes with IEEE doubles and Float32 shared arrays;
this embedding models the arithmetic exactly over `ℚ`.  The two square-root
routines of the source (`Math.sqrt` and the 1024-entry `fastSqrt` lookup
table, both duplicated verbatim in the coordinator and the sub-workers) have
irrational values, so they are abstracted as a pair of functions `SqrtModel`
that both execution paths share, exactly as both paths share the same table
code.  The xorshift32 generator is likewise abstracted as a stream `ℕ → ℚ`
of the successive values returned by `xorshift()`; it is consulted only in
the near-zero-separation perturbation branches.
-/

namespace SPH

/-! ### Constants (physics-worker.js lines 6-15, 89, 128; sub-worker.js lines 6-9) -/

def MAX_PARTICLES : ℕ := 10000
def MAX_FOAM : ℕ := 2000
def H : ℚ := 35
def H2 : ℚ := H * H
def PARTICLE_RADIUS : ℚ := 9
def REST_DENS : ℚ := 3
def DT : ℚ := 14 / 1000
def SUBSTEPS : ℚ := 2
def WALL_STIFFNESS : ℚ := 5000
def MAX_NEIGHBORS : ℕ := MAX_PARTICLES * 40
def MAX_RIGID_BODIES : ℕ := 20

/-- Dynamic physics parameters (module globals of physics-worker.js, mirrored
into the shared `s_params` Float32 block for the sub-workers). -/
structure Params where
  gasConst : ℚ
  nearGasConst : ℚ
  surfaceTension : ℚ
  visc : ℚ
  gravityX : ℚ
  gravityY : ℚ
  width : ℚ
  height : ℚ
deriving DecidableEq

/-- The two square-root routines of the source: `msqrt` stands for
`Math.sqrt`, `fsqrt` for the `fastSqrt` table lookup.  Identical code builds
the table in physics-worker.js and sub-worker.js, so one model serves both
execution paths. -/
structure SqrtModel where
  msqrt : ℚ → ℚ
  fsqrt : ℚ → ℚ

/-- Separation distance as the source computes it:
`r2 < 1.0 ? Math.sqrt(r2) : fastSqrt(r2)`. -/
def rOf (S : SqrtModel) (r2 : ℚ) : ℚ :=
  if r2 < 1 then S.msqrt r2 else S.fsqrt r2

/-! ### Rigid-body pair collision (physics-worker.js lines 755-784)

The body-body phase of `integrateRigidBodies` reads only the pose, the
velocity, the mass, and the bounding radius `bR(body)` of each body (for a
circle `bR` is its radius; for boxes and triangles it is the half-diagonal
resp. the largest vertex distance, which involve a square root and enter the
phase only through this one number).  `bRad` holds that bounding radius. -/

structure RBody where
  x : ℚ
  y : ℚ
  vx : ℚ
  vy : ℚ
  mass : ℚ
  bRad : ℚ
deriving DecidableEq

/-- One iteration of the body-body collision double loop of
`integrateRigidBodies` (physics-worker.js lines 756-783): bounding-circle
overlap test, mass-weighted positional correction, then the conditional
restitution impulse guarded by `if (relVn > 0) continue`. -/
def rigidPairCollide (msqrt : ℚ → ℚ) (a b : RBody) : RBody × RBody :=
  let ddx := b.x - a.x
  let ddy := b.y - a.y
  let dist2 := ddx * ddx + ddy * ddy
  let minDist := a.bRad + b.bRad
  if dist2 > minDist * minDist ∨ dist2 < 1 / 1000 then (a, b) else
  let dist := msqrt dist2
  let overlap := minDist - dist
  let nx := ddx / dist
  let ny := ddy / dist
  let tm := a.mass + b.mass
  let a1 : RBody := { a with
    x := a.x - nx * overlap * (b.mass / tm)
    y := a.y - ny * overlap * (b.mass / tm) }
  let b1 : RBody := { b with
    x := b.x + nx * overlap * (a.mass / tm)
    y := b.y + ny * overlap * (a.mass / tm) }
  let relVn := (a1.vx - b1.vx) * nx + (a1.vy - b1.vy) * ny
  if relVn > 0 then (a1, b1) else
  let imp := -(13 / 10) * relVn / (1 / a.mass + 1 / b.mass)
  ({ a1 with vx := a1.vx + imp * nx / a.mass, vy := a1.vy + imp * ny / a.mass },
   { b1 with vx := b1.vx - imp * nx / b.mass, vy := b1.vy - imp * ny / b.mass })

/-- Relative normal velocity as the source computes it,
`(a.vx - b.vx) * nx + (a.vy - b.vy) * ny` with the normal pointing from `a`
to `b`; it is positive exactly when the bodies are approaching. -/
def relVnOf (a b : RBody) : ℚ :=
  let ddx := b.x - a.x
  let ddy := b.y - a.y
  let dist2 := ddx * ddx + ddy * ddy
  ((a.vx - b.vx) * ddx + (a.vy - b.vy) * ddy) / dist2

/-- C5: the code applies the restitution impulse on the wrong side of the
approach test.  Two overlapping circle bodies (radius 10, centres 10 apart)
with `a` moving towards `b` at speed 50 — closing normal velocity 50 > 0 —
leave `rigidPairCollide` with both velocities unchanged (no impulse), while
the same pair with `a` moving away keeps neither velocity: the 1.3 impulse
fires for the separating pair.  The claim (and the spec) require exactly the
opposite. -/
theorem rigidPairCollide_impulse_on_separating_only :
    -- approaching pair (relVn = 50 > 0): velocities untouched
    (let res := rigidPairCollide (fun _ => 10)
        ⟨100, 100, 50, 0, 50, 10⟩ ⟨110, 100, 0, 0, 50, 10⟩
     res.1.vx = 50 ∧ res.1.vy = 0 ∧ res.2.vx = 0 ∧ res.2.vy = 0)
    ∧
    -- separating pair (relVn = -50 ≤ 0): the impulse fires and alters both
    (let res := rigidPairCollide (fun _ => 10)
        ⟨100, 100, -50, 0, 50, 10⟩ ⟨110, 100, 0, 0, 50, 10⟩
     res.1.vx = -35/2 ∧ res.2.vx = -65/2)
    ∧
    -- the first pair really is approaching, the second separating
    relVnOf ⟨100, 100, 50, 0, 50, 10⟩ ⟨110, 100, 0, 0, 50, 10⟩ > 0
    ∧ relVnOf ⟨100, 100, -50, 0, 50, 10⟩ ⟨110, 100, 0, 0, 50, 10⟩ < 0 := by
  refine ⟨?_, ?_, ?_, ?_⟩ <;> norm_num [rigidPairCollide, relVnOf]

/-! ### Teleport portals (physics-worker.js lines 1176-1196) -/

/-- A portal pair as stored by the `addPortalPair` command: the two centres
and the squared capture radius `r2` (precomputed at creation). -/
structure Portal where
  p1x : ℚ
  p1y : ℚ
  p2x : ℚ
  p2y : ℚ
  r2 : ℚ
deriving DecidableEq

/-- The per-particle portal loop body of `integrate` (lines 1177-1195):
scan the portal list in order; on the first capture, relocate and set the
cooldown to 0.15, then `break`. -/
def portalScan : List Portal → ℚ → ℚ → ℚ → ℚ × ℚ × ℚ
  | [], x, y, cd => (x, y, cd)
  | p :: rest, x, y, cd =>
    let dx1 := x - p.p1x
    let dy1 := y - p.p1y
    if dx1 * dx1 + dy1 * dy1 < p.r2 then (p.p2x + dx1, p.p2y + dy1, 3 / 20)
    else
      let dx2 := x - p.p2x
      let dy2 := y - p.p2y
      if dx2 * dx2 + dy2 * dy2 < p.r2 then (p.p1x + dx2, p.p1y + dy2, 3 / 20)
      else portalScan rest x y cd

/-- Portal resolution for one particle during `integrate`: the scan runs
only under the guard `if (p_teleportCD[i] <= 0)` (line 1176). -/
def teleportResolve (ps : List Portal) (x y cd : ℚ) : ℚ × ℚ × ℚ :=
  if cd ≤ 0 then portalScan ps x y cd else (x, y, cd)

/-- The particle is strictly within the capture radius of the pair's first
portal. -/
def capturesA (p : Portal) (x y : ℚ) : Prop :=
  (x - p.p1x) * (x - p.p1x) + (y - p.p1y) * (y - p.p1y) < p.r2

/-- The particle is strictly within the capture radius of the pair's second
portal. -/
def capturesB (p : Portal) (x y : ℚ) : Prop :=
  (x - p.p2x) * (x - p.p2x) + (y - p.p2y) * (y - p.p2y) < p.r2

instance (p : Portal) (x y : ℚ) : Decidable (capturesA p x y) := by
  unfold capturesA; infer_instance

instance (p : Portal) (x y : ℚ) : Decidable (capturesB p x y) := by
  unfold capturesB; infer_instance

/-- C6: a particle with cooldown ≤ 0 captured by a portal pair (no earlier
pair in the list capturing it) is relocated to the other portal's centre
plus its offset from the capturing portal's centre, in both directions, and
its cooldown becomes 0.15 > 0 in the same operation; a positive cooldown
makes `teleportResolve` the identity, so the particle cannot be teleported
again within the same substep. -/
theorem teleportResolve_spec (pre post : List Portal) (p : Portal) (x y cd : ℚ)
    (hcd : cd ≤ 0)
    (hpre : ∀ q ∈ pre, ¬capturesA q x y ∧ ¬capturesB q x y) :
    (capturesA p x y →
      teleportResolve (pre ++ p :: post) x y cd
        = (p.p2x + (x - p.p1x), p.p2y + (y - p.p1y), 3 / 20))
    ∧ (¬capturesA p x y → capturesB p x y →
      teleportResolve (pre ++ p :: post) x y cd
        = (p.p1x + (x - p.p2x), p.p1y + (y - p.p2y), 3 / 20))
    ∧ (0 : ℚ) < 3 / 20
    ∧ (∀ ps : List Portal, ∀ x' y' cd' : ℚ, 0 < cd' →
        teleportResolve ps x' y' cd' = (x', y', cd')) := by
  have hskip : ∀ pre' : List Portal, (∀ q ∈ pre', ¬capturesA q x y ∧ ¬capturesB q x y) →
      ∀ tail : List Portal, portalScan (pre' ++ tail) x y cd = portalScan tail x y cd := by
    intro pre' hp
    induction pre' with
    | nil => intro tail; rfl
    | cons q rest ih =>
      intro tail
      have hq := hp q (List.mem_cons_self q rest)
      have hrest : ∀ q' ∈ rest, ¬capturesA q' x y ∧ ¬capturesB q' x y := by
        intro q' hq'; exact hp q' (List.mem_cons_of_mem q hq')
      have h1 : ¬((x - q.p1x) * (x - q.p1x) + (y - q.p1y) * (y - q.p1y) < q.r2) := hq.1
      have h2 : ¬((x - q.p2x) * (x - q.p2x) + (y - q.p2y) * (y - q.p2y) < q.r2) := hq.2
      simp only [List.cons_append, portalScan, if_neg h1, if_neg h2]
      exact ih hrest tail
  refine ⟨?_, ?_, by norm_num, ?_⟩
  · intro hA
    unfold capturesA at hA
    unfold teleportResolve
    rw [if_pos hcd, hskip pre hpre (p :: post)]
    simp only [portalScan]
    rw [if_pos hA]
  · intro hA hB
    unfold capturesA at hA
    unfold capturesB at hB
    unfold teleportResolve
    rw [if_pos hcd, hskip pre hpre (p :: post)]
    simp only [portalScan]
    rw [if_neg hA, if_pos hB]
  · intro ps x' y' cd' hpos
    unfold teleportResolve
    rw [if_neg (by linarith)]

/-- Witness for C6 at a concrete input: portal pair centred at (0,0) and
(100,0) with capture radius 5 (`r2 = 25`), particle at (1,0) with cooldown
0 lands at (101,0) with cooldown 0.15. -/
theorem teleportResolve_spec_witness :
    teleportResolve [⟨0, 0, 100, 0, 25⟩] 1 0 0 = (101, 0, 3 / 20) := by
  have h := teleportResolve_spec [] [] ⟨0, 0, 100, 0, 25⟩ 1 0 0
    (by norm_num) (by intro q hq; cases hq)
  have := h.1 (by unfold capturesA; norm_num)
  norm_num at this
  exact this

/-! ### Particle state and grid cell coordinates

`PState` models the position/velocity struct-of-arrays (`p_x`, `p_y`,
`p_vx`, `p_vy`) together with `particleCount`; entries at indices ≥ `count`
are stale storage, exactly as in the fixed-capacity JS arrays. -/

structure PState where
  px : ℕ → ℚ
  py : ℕ → ℚ
  pvx : ℕ → ℚ
  pvy : ℕ → ℚ
  count : ℕ

/-- Clamped cell coordinate `Math.max(0, Math.min(n - 1, (v / H) | 0))` as an
integer.  JS `| 0` truncates toward zero while `⌊·⌋` rounds down; the two
differ only for negative `v / H`, where both are ≤ 0 and the outer
`max 0` sends both to 0, so the clamped results coincide (for magnitudes
below 2^31, the only ones a bounded simulation domain can produce). -/
def cellClamp (n : ℕ) (v : ℚ) : ℤ :=
  max 0 (min ((n : ℤ) - 1) ⌊v / H⌋)

/-- Clamped column index of an x-coordinate. -/
def cellX (cols : ℕ) (x : ℚ) : ℕ :=
  (cellClamp cols x).toNat

/-- Clamped row index of a y-coordinate. -/
def cellY (rows : ℕ) (y : ℚ) : ℕ :=
  (cellClamp rows y).toNat

/-- Linear cell id `cx + cy * cols` (updateGrid, physics-worker.js line 344). -/
def cellId (cols rows : ℕ) (x y : ℚ) : ℕ :=
  cellX cols x + cellY rows y * cols

/-! ### Spatial hash grid, array level (physics-worker.js lines 339-348)

`cellHead` and `particleNext` are Int32 arrays holding particle indices or
the sentinel -1; modelled as total functions `ℕ → ℤ` (the fixed capacities
`MAX_GRID_CELLS` and `MAX_PARTICLES` bound the indices the code ever uses). -/

@[ext]
structure GridArrays where
  cellHead : ℕ → ℤ
  particleNext : ℕ → ℤ

/-- Loop body of `updateGrid`: `particleNext[i] = cellHead[cid];
cellHead[cid] = i`. -/
def gridStep (cols rows : ℕ) (s : PState) (g : GridArrays) (i : ℕ) : GridArrays :=
  let cid := cellId cols rows (s.px i) (s.py i)
  { cellHead := Function.update g.cellHead cid (i : ℤ)
    particleNext := Function.update g.particleNext i (g.cellHead cid) }

/-- `updateGrid()`: clear every cell head to the sentinel -1, then prepend
each particle `i < particleCount` to its cell's intrusive linked list.
Entries of `particleNext` at indices ≥ `particleCount` keep their previous
contents (the source never clears them). -/
def updateGrid (cols rows : ℕ) (s : PState) (g : GridArrays) : GridArrays :=
  (List.range s.count).foldl (gridStep cols rows s)
    { cellHead := fun _ => -1, particleNext := g.particleNext }

/-- The grid fold writes `cellHead` and the `particleNext` entries of the
processed indices independently of the initial `particleNext` contents, and
leaves every unprocessed `particleNext` entry at its initial value. -/
theorem gridFold_congr (cols rows : ℕ) (s : PState) (l : List ℕ)
    (ch : ℕ → ℤ) (n₁ n₂ : ℕ → ℤ) :
    (l.foldl (gridStep cols rows s) ⟨ch, n₁⟩).cellHead
      = (l.foldl (gridStep cols rows s) ⟨ch, n₂⟩).cellHead
    ∧ ∀ i, (l.foldl (gridStep cols rows s) ⟨ch, n₁⟩).particleNext i
        = if i ∈ l then (l.foldl (gridStep cols rows s) ⟨ch, n₂⟩).particleNext i
          else n₁ i := by
  induction l generalizing ch n₁ n₂ with
  | nil => exact ⟨rfl, fun i => by simp⟩
  | cons a t ih =>
    simp only [List.foldl_cons, gridStep]
    set cid := cellId cols rows (s.px a) (s.py a) with hcid
    set v := ch cid with hv
    obtain ⟨ihh, ihn⟩ := ih (Function.update ch cid (a : ℤ))
      (Function.update n₁ a v) (Function.update n₂ a v)
    refine ⟨ihh, fun i => ?_⟩
    by_cases hit : i ∈ t
    · rw [ihn i, if_pos hit, if_pos (List.mem_cons_of_mem a hit)]
    · by_cases hia : i = a
      · subst hia
        rw [ihn i, if_neg hit, if_pos (List.mem_cons_self i t)]
        have h2 := (ih (Function.update ch cid (i : ℤ))
          (Function.update n₂ i v) (Function.update n₂ i v)).2 i
        rw [h2, if_neg hit, Function.update_same, Function.update_same]
      · rw [ihn i, if_neg hit, if_neg (by simp [hia, hit]),
          Function.update_noteq hia]

/-- C9: `updateGrid` is idempotent for a static particle configuration —
rebuilding the grid twice from the same positions and `particleCount`
produces exactly the same `cellHead` and `particleNext` contents as
rebuilding it once. -/
theorem updateGrid_idempotent (cols rows : ℕ) (s : PState) (g : GridArrays) :
    updateGrid cols rows s (updateGrid cols rows s g) = updateGrid cols rows s g := by
  have h := gridFold_congr cols rows s (List.range s.count) (fun _ => -1)
    (updateGrid cols rows s g).particleNext g.particleNext
  ext i
  · exact congrFun h.1 i
  · show (updateGrid cols rows s (updateGrid cols rows s g)).particleNext i
      = (updateGrid cols rows s g).particleNext i
    have h2 := h.2 i
    by_cases hi : i ∈ List.range s.count
    · rw [if_pos hi] at h2; exact h2
    · rw [if_neg hi] at h2; exact h2

/-! ### Spatial hash grid, list abstraction

The density and force passes walk the per-cell intrusive linked lists
(`let j = cellHead[c]; while (j !== -1) j = particleNext[j]`).  After
`updateGrid`, cell `c`'s walk visits exactly the particles whose cell id is
`c`, most recently prepended first.  `gridList` is that per-cell list,
built by the same prepend loop as `updateGrid`. -/

def gridListStep (cols rows : ℕ) (s : PState) (g : ℕ → List ℕ) (i : ℕ) : ℕ → List ℕ :=
  Function.update g (cellId cols rows (s.px i) (s.py i))
    (i :: g (cellId cols rows (s.px i) (s.py i)))

/-- Per-cell particle lists after `updateGrid`. -/
def gridList (cols rows : ℕ) (s : PState) : ℕ → List ℕ :=
  (List.range s.count).foldl (gridListStep cols rows s) (fun _ => [])

/-- Cell `c`'s list holds exactly the particles hashed to `c`, in reverse
insertion order. -/
theorem gridList_eq (cols rows : ℕ) (s : PState) (c : ℕ) :
    gridList cols rows s c
      = ((List.range s.count).filter
          (fun j => decide (cellId cols rows (s.px j) (s.py j) = c))).reverse := by
  suffices h : ∀ n : ℕ,
      ((List.range n).foldl (gridListStep cols rows s) (fun _ => [])) c
        = ((List.range n).filter
            (fun j => decide (cellId cols rows (s.px j) (s.py j) = c))).reverse by
    exact h s.count
  intro n
  induction n with
  | zero => rfl
  | succ n ih =>
    rw [List.range_succ, List.foldl_append, List.filter_append]
    simp only [List.foldl_cons, List.foldl_nil, List.reverse_append, gridListStep]
    by_cases hc : cellId cols rows (s.px n) (s.py n) = c
    · rw [hc, Function.update_same, ih]
      simp [hc]
    · rw [Function.update_noteq (Ne.symm hc), ih]
      simp [hc]

/-- Membership in a cell list. -/
theorem mem_gridList (cols rows : ℕ) (s : PState) (c j : ℕ) :
    j ∈ gridList cols rows s c
      ↔ j < s.count ∧ cellId cols rows (s.px j) (s.py j) = c := by
  rw [gridList_eq, List.mem_reverse, List.mem_filter, List.mem_range]
  simp

/-- The 3×3 (edge-clamped) block of cells examined around grid coordinates
`(cx, cy)` (the `cxMin..cxMax` / `cyMin..cyMax` double loop of the density
and force passes, identical in physics-worker.js and sub-worker.js). -/
def blockCells (cols rows cx cy : ℕ) : List ℕ :=
  let cxMin := cx - 1
  let cxMax := min (cx + 1) (cols - 1)
  let cyMin := cy - 1
  let cyMax := min (cy + 1) (rows - 1)
  (List.range' cyMin (cyMax + 1 - cyMin)).flatMap
    (fun ny => (List.range' cxMin (cxMax + 1 - cxMin)).map (fun nx => nx + ny * cols))

/-- Decomposing a cell id with a column index below `cols`. -/
theorem cellId_decomp (cols nx ny : ℕ) (hnx : nx < cols) :
    (nx + ny * cols) / cols = ny ∧ (nx + ny * cols) % cols = nx := by
  have hc : 0 < cols := Nat.pos_of_ne_zero (by omega)
  constructor
  · rw [Nat.add_mul_div_right _ _ hc, Nat.div_eq_of_lt hnx, Nat.zero_add]
  · rw [Nat.add_mul_mod_self_right, Nat.mod_eq_of_lt hnx]

/-- Membership in the cell block. -/
theorem mem_blockCells (cols rows cx cy c : ℕ) :
    c ∈ blockCells cols rows cx cy
      ↔ ∃ nx ny : ℕ, (cx - 1 ≤ nx ∧ nx ≤ min (cx + 1) (cols - 1))
          ∧ (cy - 1 ≤ ny ∧ ny ≤ min (cy + 1) (rows - 1))
          ∧ c = nx + ny * cols := by
  unfold blockCells
  simp only [List.mem_flatMap, List.mem_map, List.mem_range'_1]
  constructor
  · rintro ⟨ny, hny, nx, hnx, rfl⟩
    exact ⟨nx, ny, ⟨by omega, by omega⟩, ⟨by omega, by omega⟩, rfl⟩
  · rintro ⟨nx, ny, ⟨h1, h2⟩, ⟨h3, h4⟩, rfl⟩
    exact ⟨ny, ⟨by omega, by omega⟩, nx, ⟨by omega, by omega⟩, rfl⟩

/-- The block visits 9 (or fewer, at the domain edge) pairwise distinct
cells. -/
theorem blockCells_nodup (cols rows cx cy : ℕ) (hc : 1 ≤ cols) :
    (blockCells cols rows cx cy).Nodup := by
  unfold blockCells
  have hinner : ∀ ny : ℕ,
      ((List.range' (cx - 1) (min (cx + 1) (cols - 1) + 1 - (cx - 1))).map
        (fun nx => nx + ny * cols)).Nodup := by
    intro ny
    exact (List.nodup_range' _ _).map (fun a b h => by omega)
  have hdiv : ∀ ny x, x ∈ ((List.range' (cx - 1) (min (cx + 1) (cols - 1) + 1 - (cx - 1))).map
      (fun nx => nx + ny * cols)) → x / cols = ny := by
    intro ny x hx
    rw [List.mem_map] at hx
    obtain ⟨nx, hnx, rfl⟩ := hx
    rw [List.mem_range'_1] at hnx
    have hlt : nx < cols := by omega
    exact (cellId_decomp cols _ ny hlt).1
  have key : ∀ l : List ℕ, l.Nodup →
      (l.flatMap (fun ny => (List.range' (cx - 1) (min (cx + 1) (cols - 1) + 1 - (cx - 1))).map
        (fun nx => nx + ny * cols))).Nodup := by
    intro l hl
    induction l with
    | nil => exact List.nodup_nil
    | cons a t ih =>
      rw [List.flatMap_cons, List.nodup_append]
      refine ⟨hinner a, ih hl.of_cons, ?_⟩
      intro x hxa hxt
      rw [List.mem_flatMap] at hxt
      obtain ⟨b, hb, hxb⟩ := hxt
      have ha' := hdiv a x hxa
      have hb' := hdiv b x hxb
      have : a ≠ b := by
        intro h; subst h
        exact (List.nodup_cons.mp hl).1 hb
      omega
  exact key _ (List.nodup_range' _ _)

/-! ### Neighbor enumeration (density / force pass traversal) -/

/-- The particle indices visited by the 3×3-cell linked-list walk around
particle `i` (in visit order). -/
def candidates (cols rows : ℕ) (g : ℕ → List ℕ) (s : PState) (i : ℕ) : List ℕ :=
  (blockCells cols rows (cellX cols (s.px i)) (cellY rows (s.py i))).flatMap g

/-- Squared separation `dx * dx + dy * dy` with `dx = p_x[j] - p_x[i]`. -/
def dist2 (s : PState) (i j : ℕ) : ℚ :=
  (s.px j - s.px i) * (s.px j - s.px i) + (s.py j - s.py i) * (s.py j - s.py i)

/-- Kernel weight `q = 1.0 - r / H`. -/
def qOf (S : SqrtModel) (r2 : ℚ) : ℚ := 1 - rOf S r2 / H

/-- The neighbor entries `(j, r, q)` particle `i`'s traversal produces: the
walk skips `j = i` and keeps pairs with `r2 < H2` (identical filter in
`computeDensityPressure`, `computeDensitySlice` and `computeForcesSlice`). -/
def neighEntries (S : SqrtModel) (cols rows : ℕ) (g : ℕ → List ℕ) (s : PState) (i : ℕ) :
    List (ℕ × ℚ × ℚ) :=
  (candidates cols rows g s i).filterMap (fun j =>
    if i ≠ j then
      if dist2 s i j < H2 then some (j, rOf S (dist2 s i j), qOf S (dist2 s i j))
      else none
    else none)

theorem neighEntries_eq_map_filter (S : SqrtModel) (cols rows : ℕ) (g : ℕ → List ℕ)
    (s : PState) (i : ℕ) :
    neighEntries S cols rows g s i
      = ((candidates cols rows g s i).filter
          (fun j => decide (i ≠ j ∧ dist2 s i j < H2))).map
          (fun j => (j, rOf S (dist2 s i j), qOf S (dist2 s i j))) := by
  unfold neighEntries
  generalize candidates cols rows g s i = l
  induction l with
  | nil => rfl
  | cons a t ih =>
    rw [List.filterMap_cons, List.filter_cons]
    by_cases h1 : i ≠ a
    · by_cases h2 : dist2 s i a < H2
      · simp only [if_pos h1, if_pos h2, decide_eq_true_eq]
        rw [if_pos ⟨h1, h2⟩, List.map_cons, ih]
      · simp only [if_pos h1, if_neg h2, decide_eq_true_eq]
        rw [if_neg (by tauto), ih]
    · simp only [if_neg h1, decide_eq_true_eq]
      rw [if_neg (by tauto), ih]

/-! ### Grid completeness: the 3×3 walk finds exactly the in-range pairs -/

theorem floor_div_close (a b : ℚ) (h1 : a - b < H) : ⌊a / H⌋ ≤ ⌊b / H⌋ + 1 := by
  have hH : (0 : ℚ) < H := by norm_num [H]
  have hd : (a - b) / H < 1 := (div_lt_one hH).mpr h1
  rw [sub_div] at hd
  have : a / H ≤ b / H + 1 := by linarith
  calc ⌊a / H⌋ ≤ ⌊b / H + 1⌋ := Int.floor_le_floor this
    _ = ⌊b / H⌋ + 1 := by rw [Int.floor_add_one]

theorem cellClamp_close (n : ℕ) (a b : ℚ) (h1 : a - b < H) (h2 : b - a < H) :
    cellClamp n a ≤ cellClamp n b + 1 ∧ cellClamp n b ≤ cellClamp n a + 1 := by
  have f1 := floor_div_close a b h1
  have f2 := floor_div_close b a h2
  unfold cellClamp
  omega

/-- Geometric completeness: any particle within kernel range of particle
`i` hashes to one of the 9 cells of `i`'s block. -/
theorem cell_mem_block (cols rows : ℕ) (hc : 1 ≤ cols) (hr : 1 ≤ rows)
    (s : PState) (i j : ℕ) (hd : dist2 s i j < H2) :
    cellId cols rows (s.px j) (s.py j)
      ∈ blockCells cols rows (cellX cols (s.px i)) (cellY rows (s.py i)) := by
  have hH : (0 : ℚ) < H := by norm_num [H]
  have hx2 : (s.px j - s.px i) * (s.px j - s.px i) < H * H := by
    have h0 : 0 ≤ (s.py j - s.py i) * (s.py j - s.py i) := mul_self_nonneg _
    unfold dist2 at hd
    unfold H2 at hd
    nlinarith
  have hy2 : (s.py j - s.py i) * (s.py j - s.py i) < H * H := by
    have h0 : 0 ≤ (s.px j - s.px i) * (s.px j - s.px i) := mul_self_nonneg _
    unfold dist2 at hd
    unfold H2 at hd
    nlinarith
  have hx : s.px j - s.px i < H ∧ s.px i - s.px j < H := by
    constructor <;> nlinarith
  have hy : s.py j - s.py i < H ∧ s.py i - s.py j < H := by
    constructor <;> nlinarith
  have cx := cellClamp_close cols (s.px j) (s.px i) hx.1 hx.2
  have cy := cellClamp_close rows (s.py j) (s.py i) hy.1 hy.2
  rw [mem_blockCells]
  refine ⟨cellX cols (s.px j), cellY rows (s.py j), ⟨?_, ?_⟩, ⟨?_, ?_⟩, rfl⟩
  all_goals simp only [cellX, cellY, cellClamp] at cx cy ⊢
  all_goals omega

/-! ### Multiset view of the traversal -/

theorem filter_cell_split (f : ℕ → ℕ) (c : ℕ) (cs : List ℕ) (hc : c ∉ cs)
    (l : List ℕ) :
    ((l.filter (fun j => decide (f j = c)) : List ℕ) : Multiset ℕ)
        + (l.filter (fun j => decide (f j ∈ cs)) : List ℕ)
      = ((l.filter (fun j => decide (f j ∈ c :: cs)) : List ℕ) : Multiset ℕ) := by
  induction l with
  | nil => rfl
  | cons a t ih =>
    simp only [List.filter_cons, decide_eq_true_eq]
    by_cases h1 : f a = c
    · have h2 : f a ∉ cs := h1 ▸ hc
      rw [if_pos h1, if_neg h2, if_pos (List.mem_cons.mpr (Or.inl h1))]
      rw [← Multiset.cons_coe, ← Multiset.cons_coe, Multiset.cons_add, ih]
    · by_cases h2 : f a ∈ cs
      · rw [if_neg h1, if_pos h2, if_pos (List.mem_cons.mpr (Or.inr h2))]
        rw [← Multiset.cons_coe, ← Multiset.cons_coe, Multiset.add_cons, ih]
      · rw [if_neg h1, if_neg h2,
          if_neg (by rw [List.mem_cons]; tauto), ih]

theorem flatMap_gridList_multiset (cols rows : ℕ) (s : PState) (cs : List ℕ)
    (hcs : cs.Nodup) :
    ((cs.flatMap (gridList cols rows s) : List ℕ) : Multiset ℕ)
      = (((List.range s.count).filter
          (fun j => decide (cellId cols rows (s.px j) (s.py j) ∈ cs)) : List ℕ) :
            Multiset ℕ) := by
  induction cs with
  | nil => simp
  | cons c cs' ih =>
    rw [List.flatMap_cons]
    have hc : c ∉ cs' := (List.nodup_cons.mp hcs).1
    have ih' := ih (List.nodup_cons.mp hcs).2
    rw [← Multiset.coe_add, ih']
    have hg : ((gridList cols rows s c : List ℕ) : Multiset ℕ)
        = (((List.range s.count).filter
            (fun j => decide (cellId cols rows (s.px j) (s.py j) = c)) : List ℕ) :
              Multiset ℕ) := by
      rw [gridList_eq]
      exact Multiset.coe_reverse _
    rw [hg]
    exact filter_cell_split _ c cs' hc _

/-- The traversal around particle `i` visits, as a multiset, exactly the
particles (indices < count) whose cell lies in `i`'s 3×3 block. -/
theorem candidates_multiset (cols rows : ℕ) (hc : 1 ≤ cols) (s : PState) (i : ℕ) :
    ((candidates cols rows (gridList cols rows s) s i : List ℕ) : Multiset ℕ)
      = (((List.range s.count).filter
          (fun j => decide (cellId cols rows (s.px j) (s.py j)
            ∈ blockCells cols rows (cellX cols (s.px i)) (cellY rows (s.py i)))) :
              List ℕ) : Multiset ℕ) := by
  exact flatMap_gridList_multiset cols rows s _
    (blockCells_nodup cols rows _ _ hc)

/-- Summing any per-neighbor value over the traversal equals summing it over
all in-range particles `j ≠ i, j < count`. -/
theorem neighSum_eq (cols rows : ℕ) (hc : 1 ≤ cols) (hr : 1 ≤ rows)
    (s : PState) (i : ℕ) (val : ℕ → ℚ) :
    (((candidates cols rows (gridList cols rows s) s i).filter
        (fun j => decide (i ≠ j ∧ dist2 s i j < H2))).map val).sum
      = (((List.range s.count).filter
          (fun j => decide (i ≠ j ∧ dist2 s i j < H2))).map val).sum := by
  have hperm : (candidates cols rows (gridList cols rows s) s i).Perm
      ((List.range s.count).filter
        (fun j => decide (cellId cols rows (s.px j) (s.py j)
          ∈ blockCells cols rows (cellX cols (s.px i)) (cellY rows (s.py i))))) :=
    Multiset.coe_eq_coe.mp (candidates_multiset cols rows hc s i)
  have hperm2 := (hperm.filter (fun j => decide (i ≠ j ∧ dist2 s i j < H2))).map val
  rw [hperm2.sum_eq, List.filter_filter]
  have hfe : (List.range s.count).filter
      (fun a => decide (i ≠ a ∧ dist2 s i a < H2)
        && decide (cellId cols rows (s.px a) (s.py a)
          ∈ blockCells cols rows (cellX cols (s.px i)) (cellY rows (s.py i))))
      = (List.range s.count).filter (fun j => decide (i ≠ j ∧ dist2 s i j < H2)) := by
    apply List.filter_congr
    intro j hj
    by_cases hP : i ≠ j ∧ dist2 s i j < H2
    · have hblock := cell_mem_block cols rows hc hr s i j hP.2
      simp [hP, hblock]
    · simp [hP]
  rw [hfe]

/-! ### Per-particle density, near-density, pressure, near-pressure

These four values are computed by textually identical code in the serial
`computeDensityPressure` (physics-worker.js lines 355-401) and the parallel
`computeDensitySlice` (sub-worker.js lines 111-149); the parallel pass reads
`GAS_CONST`/`NEAR_GAS_CONST` from the shared parameter block, which
`updateSharedParams` fills with the coordinator's values before each signal,
so one definition serves both. -/

def densityAt (S : SqrtModel) (cols rows : ℕ) (g : ℕ → List ℕ) (s : PState) (i : ℕ) : ℚ :=
  let d := ((neighEntries S cols rows g s i).map (fun e => e.2.2 * e.2.2)).sum + 1
  if d < 1 / 10 then 1 / 10 else d

def nearDensityAt (S : SqrtModel) (cols rows : ℕ) (g : ℕ → List ℕ) (s : PState) (i : ℕ) : ℚ :=
  ((neighEntries S cols rows g s i).map (fun e => e.2.2 * e.2.2 * e.2.2)).sum + 1

def pressureAt (S : SqrtModel) (P : Params) (cols rows : ℕ) (g : ℕ → List ℕ)
    (s : PState) (i : ℕ) : ℚ :=
  max (-(P.gasConst * (1 / 10))) (P.gasConst * (densityAt S cols rows g s i - REST_DENS))

def nearPressureAt (S : SqrtModel) (P : Params) (cols rows : ℕ) (g : ℕ → List ℕ)
    (s : PState) (i : ℕ) : ℚ :=
  P.nearGasConst * nearDensityAt S cols rows g s i

/-! ### The claim-side formulation of the density sums (spec §4.3/§8)

`specNeighborList` enumerates all particles `j ≠ i` strictly within kernel
distance `H` of particle `i` — with no reference to the grid. -/

def specNeighborList (s : PState) (i : ℕ) : List ℕ :=
  (List.range s.count).filter (fun j => decide (j ≠ i ∧ dist2 s i j < H2))

/-- Claim formulation: `1.0 + Σ q²` over all in-range neighbors,
floor-clamped to `0.1`. -/
def specDensity (S : SqrtModel) (s : PState) (i : ℕ) : ℚ :=
  max (1 + ((specNeighborList s i).map
    (fun j => qOf S (dist2 s i j) * qOf S (dist2 s i j))).sum) (1 / 10)

/-- Claim formulation: `1.0 + Σ q³` over all in-range neighbors. -/
def specNearDensity (S : SqrtModel) (s : PState) (i : ℕ) : ℚ :=
  1 + ((specNeighborList s i).map
    (fun j => qOf S (dist2 s i j) * qOf S (dist2 s i j) * qOf S (dist2 s i j))).sum

theorem specNeighborList_comm (s : PState) (i : ℕ) :
    specNeighborList s i
      = (List.range s.count).filter (fun j => decide (i ≠ j ∧ dist2 s i j < H2)) := by
  unfold specNeighborList
  apply List.filter_congr
  intro j hj
  by_cases h : j = i <;> simp [h, Ne.symm, ne_comm]

/-- The grid-based per-particle density equals the claim's all-pairs
formulation, and likewise for near-density. -/
theorem densityAt_eq_spec (S : SqrtModel) (cols rows : ℕ) (hc : 1 ≤ cols) (hr : 1 ≤ rows)
    (s : PState) (i : ℕ) :
    densityAt S cols rows (gridList cols rows s) s i = specDensity S s i
    ∧ nearDensityAt S cols rows (gridList cols rows s) s i = specNearDensity S s i := by
  have hmap : ∀ val : ℕ → ℚ,
      ((neighEntries S cols rows (gridList cols rows s) s i).map
        (fun e => val e.1)).sum
      = ((specNeighborList s i).map val).sum := by
    intro val
    rw [neighEntries_eq_map_filter, List.map_map, specNeighborList_comm]
    exact neighSum_eq cols rows hc hr s i val
  have hq : ∀ e ∈ neighEntries S cols rows (gridList cols rows s) s i,
      e.2.2 = qOf S (dist2 s i e.1) := by
    intro e he
    rw [neighEntries_eq_map_filter] at he
    obtain ⟨j, hj, rfl⟩ := List.mem_map.mp he
    rfl
  constructor
  · unfold densityAt specDensity
    have h1 : ((neighEntries S cols rows (gridList cols rows s) s i).map
        (fun e => e.2.2 * e.2.2)).sum
        = ((specNeighborList s i).map
          (fun j => qOf S (dist2 s i j) * qOf S (dist2 s i j))).sum := by
      rw [List.map_congr_left (fun e he => by rw [hq e he])]
      exact hmap (fun j => qOf S (dist2 s i j) * qOf S (dist2 s i j))
    rw [h1]
    rcases le_or_lt (1/10 : ℚ)
        (((specNeighborList s i).map
          (fun j => qOf S (dist2 s i j) * qOf S (dist2 s i j))).sum + 1) with h | h
    · rw [if_neg (by linarith), max_eq_left (by linarith)]
      ring
    · rw [if_pos (by linarith), max_eq_right (by linarith)]
  · unfold nearDensityAt specNearDensity
    have h1 : ((neighEntries S cols rows (gridList cols rows s) s i).map
        (fun e => e.2.2 * e.2.2 * e.2.2)).sum
        = ((specNeighborList s i).map
          (fun j => qOf S (dist2 s i j) * qOf S (dist2 s i j) * qOf S (dist2 s i j))).sum := by
      rw [List.map_congr_left (fun e he => by rw [hq e he])]
      exact hmap (fun j => qOf S (dist2 s i j) * qOf S (dist2 s i j) * qOf S (dist2 s i j))
    rw [h1]
    ring

/-- The floor clamp makes the stored density at least 0.1. -/
theorem densityAt_ge (S : SqrtModel) (cols rows : ℕ) (g : ℕ → List ℕ) (s : PState) (i : ℕ) :
    1 / 10 ≤ densityAt S cols rows g s i := by
  by_cases h : ((neighEntries S cols rows g s i).map (fun e => e.2.2 * e.2.2)).sum + 1 < 1 / 10
  · simp only [densityAt, if_pos h]
    exact le_refl _
  · simp only [densityAt, if_neg h]
    linarith [not_lt.mp h]

/-! ### Density passes (serial and parallel) -/

/-- The four per-particle output arrays of the density phase. -/
structure DFields where
  dens : ℕ → ℚ
  nearDens : ℕ → ℚ
  press : ℕ → ℚ
  nearPress : ℕ → ℚ

/-- One cached neighbor record (`neigh_i`, `neigh_j`, `neigh_r`, `neigh_q`)
of the serial path's neighbor cache. -/
structure NPair where
  ni : ℕ
  nj : ℕ
  nr : ℚ
  nq : ℚ

/-- Cache records produced while processing particle `i`. -/
def toPairs (i : ℕ) (es : List (ℕ × ℚ × ℚ)) : List NPair :=
  es.map (fun e => ⟨i, e.1, e.2.1, e.2.2⟩)

/-- The four writes `p_density[i] = d; p_nearDensity[i] = nd;
p_pressure[i] = ...; p_nearPressure[i] = ...` for one particle (identical in
physics-worker.js lines 398-401 and sub-worker.js lines 146-149). -/
def densWrite (S : SqrtModel) (P : Params) (cols rows : ℕ) (g : ℕ → List ℕ)
    (s : PState) (df : DFields) (i : ℕ) : DFields :=
  { dens := Function.update df.dens i (densityAt S cols rows g s i)
    nearDens := Function.update df.nearDens i (nearDensityAt S cols rows g s i)
    press := Function.update df.press i (pressureAt S P cols rows g s i)
    nearPress := Function.update df.nearPress i (nearPressureAt S P cols rows g s i) }

/-- Serial loop body: the four writes plus appending the particle's neighbor
records to the cache while `neighborCount < MAX_NEIGHBORS`
(physics-worker.js lines 380-386). -/
def densBody (S : SqrtModel) (P : Params) (cols rows : ℕ) (g : ℕ → List ℕ)
    (s : PState) (acc : DFields × List NPair) (i : ℕ) : DFields × List NPair :=
  (densWrite S P cols rows g s acc.1 i,
   acc.2 ++ (toPairs i (neighEntries S cols rows g s i)).take (MAX_NEIGHBORS - acc.2.length))

/-- Serial `computeDensityPressure` (physics-worker.js lines 353-403): resets
the neighbor cache (`neighborCount = 0`) and loops over all particles. -/
def computeDensityPressure (S : SqrtModel) (P : Params) (cols rows : ℕ)
    (g : ℕ → List ℕ) (s : PState) (df0 : DFields) : DFields × List NPair :=
  (List.range s.count).foldl (densBody S P cols rows g s) (df0, [])

/-- Parallel `computeDensitySlice(start, end, cols, rows)`
(sub-worker.js lines 107-151): the same per-particle writes over
`[start, end)`, without a cache. -/
def computeDensitySlice (S : SqrtModel) (P : Params) (cols rows : ℕ)
    (g : ℕ → List ℕ) (s : PState) (a b : ℕ) (df : DFields) : DFields :=
  (List.range' a (b - a)).foldl (densWrite S P cols rows g s) df

/-- `sliceSize = Math.ceil(MAX_PARTICLES / numSubWorkers)`
(physics-worker.js line 251). -/
def sliceSize (numW : ℕ) : ℕ := (MAX_PARTICLES + numW - 1) / numW

/-- Worker `w`'s effective start index `min(startIdx, pCount)`
(sub-worker.js line 94 with physics-worker.js line 281). -/
def sliceStart (numW w pc : ℕ) : ℕ := min (w * sliceSize numW) pc

/-- Worker `w`'s effective end index
`min(min((w+1)*sliceSize, MAX_PARTICLES), pCount)`. -/
def sliceEndIdx (numW w pc : ℕ) : ℕ :=
  min (min ((w + 1) * sliceSize numW) MAX_PARTICLES) pc

/-- The density phase of the parallel path: every worker slice is executed
(their write sets are disjoint, so any execution order yields this). -/
def runDensitySlices (S : SqrtModel) (P : Params) (cols rows : ℕ)
    (g : ℕ → List ℕ) (s : PState) (numW : ℕ) (df : DFields) : DFields :=
  (List.range numW).foldl
    (fun df w => computeDensitySlice S P cols rows g s
      (sliceStart numW w s.count) (sliceEndIdx numW w s.count) df) df

/-- Folding the per-particle write over any index list writes each processed
index to its per-particle value and leaves the rest alone. -/
theorem foldl_densWrite_spec (S : SqrtModel) (P : Params) (cols rows : ℕ)
    (g : ℕ → List ℕ) (s : PState) (l : List ℕ) (df : DFields) (j : ℕ) :
    ((l.foldl (densWrite S P cols rows g s) df).dens j
        = if j ∈ l then densityAt S cols rows g s j else df.dens j)
    ∧ ((l.foldl (densWrite S P cols rows g s) df).nearDens j
        = if j ∈ l then nearDensityAt S cols rows g s j else df.nearDens j)
    ∧ ((l.foldl (densWrite S P cols rows g s) df).press j
        = if j ∈ l then pressureAt S P cols rows g s j else df.press j)
    ∧ ((l.foldl (densWrite S P cols rows g s) df).nearPress j
        = if j ∈ l then nearPressureAt S P cols rows g s j else df.nearPress j) := by
  induction l generalizing df with
  | nil => simp
  | cons a t ih =>
    rw [List.foldl_cons]
    obtain ⟨ih1, ih2, ih3, ih4⟩ := ih (densWrite S P cols rows g s df a)
    by_cases ht : j ∈ t
    · rw [ih1, ih2, ih3, ih4]
      simp [ht, List.mem_cons]
    · by_cases ha : j = a
      · subst ha
        rw [ih1, ih2, ih3, ih4]
        simp [ht, densWrite]
      · rw [ih1, ih2, ih3, ih4]
        simp only [if_neg ht, if_neg (by simp [ha, ht] : ¬j ∈ a :: t)]
        simp [densWrite, Function.update_noteq ha]

/-- The serial pass's field part is the same write fold. -/
theorem computeDensityPressure_fst (S : SqrtModel) (P : Params) (cols rows : ℕ)
    (g : ℕ → List ℕ) (s : PState) (df0 : DFields) :
    (computeDensityPressure S P cols rows g s df0).1
      = (List.range s.count).foldl (densWrite S P cols rows g s) df0 := by
  unfold computeDensityPressure
  generalize List.range s.count = l
  suffices h : ∀ (l : List ℕ) (acc : DFields × List NPair),
      (l.foldl (densBody S P cols rows g s) acc).1
        = l.foldl (densWrite S P cols rows g s) acc.1 by
    exact h l (df0, [])
  intro l
  induction l with
  | nil => intro acc; rfl
  | cons a t ih => intro acc; exact ih _

/-- A slice writes exactly its index interval. -/
theorem computeDensitySlice_spec (S : SqrtModel) (P : Params) (cols rows : ℕ)
    (g : ℕ → List ℕ) (s : PState) (a b : ℕ) (df : DFields) (j : ℕ) :
    ((computeDensitySlice S P cols rows g s a b df).dens j
        = if a ≤ j ∧ j < b then densityAt S cols rows g s j else df.dens j)
    ∧ ((computeDensitySlice S P cols rows g s a b df).nearDens j
        = if a ≤ j ∧ j < b then nearDensityAt S cols rows g s j else df.nearDens j)
    ∧ ((computeDensitySlice S P cols rows g s a b df).press j
        = if a ≤ j ∧ j < b then pressureAt S P cols rows g s j else df.press j)
    ∧ ((computeDensitySlice S P cols rows g s a b df).nearPress j
        = if a ≤ j ∧ j < b then nearPressureAt S P cols rows g s j else df.nearPress j) := by
  have hmem : (j ∈ List.range' a (b - a)) ↔ (a ≤ j ∧ j < b) := by
    rw [List.mem_range'_1]
    omega
  obtain ⟨h1, h2, h3, h4⟩ := foldl_densWrite_spec S P cols rows g s (List.range' a (b - a)) df j
  unfold computeDensitySlice
  rw [h1, h2, h3, h4]
  refine ⟨?_, ?_, ?_, ?_⟩ <;> { rw [if_congr hmem rfl rfl] }

/-- The static worker slices cover every particle index below `pc` (for
`pc ≤ MAX_PARTICLES`). -/
theorem slicesCover (numW pc j : ℕ) (hW : 1 ≤ numW) (hpc : pc ≤ MAX_PARTICLES)
    (hj : j < pc) :
    ∃ w, w ∈ List.range numW
      ∧ sliceStart numW w pc ≤ j ∧ j < sliceEndIdx numW w pc := by
  have hM : 1 ≤ MAX_PARTICLES := by norm_num [MAX_PARTICLES]
  have key : ∀ a b : ℕ, 0 < b → a < (a / b + 1) * b := by
    intro a b hb
    have h1 := Nat.div_add_mod a b
    have h2 := Nat.mod_lt a hb
    have h3 : (a / b + 1) * b = b * (a / b) + b := by ring
    omega
  have hss : 1 ≤ sliceSize numW := by
    unfold sliceSize
    rw [Nat.one_le_div_iff (by omega)]
    omega
  have hceil : MAX_PARTICLES ≤ numW * sliceSize numW := by
    have h1 := key (MAX_PARTICLES + numW - 1) numW (by omega)
    have h2 : ((MAX_PARTICLES + numW - 1) / numW + 1) * numW
        = (MAX_PARTICLES + numW - 1) / numW * numW + numW := by ring
    have h3 : numW * sliceSize numW = (MAX_PARTICLES + numW - 1) / numW * numW := by
      unfold sliceSize
      ring
    rw [h2] at h1
    rw [h3]
    omega
  have hdl : j / sliceSize numW * sliceSize numW ≤ j := Nat.div_mul_le_self _ _
  have hdu : j < (j / sliceSize numW + 1) * sliceSize numW := key j _ (by omega)
  have hdu' : (j / sliceSize numW + 1) * sliceSize numW
      = j / sliceSize numW * sliceSize numW + sliceSize numW := by ring
  refine ⟨j / sliceSize numW, ?_, ?_, ?_⟩
  · rw [List.mem_range, Nat.div_lt_iff_lt_mul (by omega)]
    omega
  · unfold sliceStart
    omega
  · unfold sliceEndIdx
    omega

/-- Folding any list of slices: a covered index holds its per-particle
value; an uncovered one keeps its prior contents. -/
theorem runSlicesFold_spec (S : SqrtModel) (P : Params) (cols rows : ℕ)
    (g : ℕ → List ℕ) (s : PState) (numW : ℕ) (ws : List ℕ) (df : DFields) (j : ℕ) :
    (((ws.foldl (fun df w => computeDensitySlice S P cols rows g s
          (sliceStart numW w s.count) (sliceEndIdx numW w s.count) df) df).dens j)
      = if ∃ w ∈ ws, sliceStart numW w s.count ≤ j ∧ j < sliceEndIdx numW w s.count
        then densityAt S cols rows g s j else df.dens j)
    ∧ (((ws.foldl (fun df w => computeDensitySlice S P cols rows g s
          (sliceStart numW w s.count) (sliceEndIdx numW w s.count) df) df).nearDens j)
      = if ∃ w ∈ ws, sliceStart numW w s.count ≤ j ∧ j < sliceEndIdx numW w s.count
        then nearDensityAt S cols rows g s j else df.nearDens j)
    ∧ (((ws.foldl (fun df w => computeDensitySlice S P cols rows g s
          (sliceStart numW w s.count) (sliceEndIdx numW w s.count) df) df).press j)
      = if ∃ w ∈ ws, sliceStart numW w s.count ≤ j ∧ j < sliceEndIdx numW w s.count
        then pressureAt S P cols rows g s j else df.press j)
    ∧ (((ws.foldl (fun df w => computeDensitySlice S P cols rows g s
          (sliceStart numW w s.count) (sliceEndIdx numW w s.count) df) df).nearPress j)
      = if ∃ w ∈ ws, sliceStart numW w s.count ≤ j ∧ j < sliceEndIdx numW w s.count
        then nearPressureAt S P cols rows g s j else df.nearPress j) := by
  induction ws generalizing df with
  | nil => simp
  | cons w ws' ih =>
    rw [List.foldl_cons]
    obtain ⟨ih1, ih2, ih3, ih4⟩ := ih (computeDensitySlice S P cols rows g s
      (sliceStart numW w s.count) (sliceEndIdx numW w s.count) df)
    obtain ⟨hs1, hs2, hs3, hs4⟩ := computeDensitySlice_spec S P cols rows g s
      (sliceStart numW w s.count) (sliceEndIdx numW w s.count) df j
    rw [ih1, ih2, ih3, ih4, hs1, hs2, hs3, hs4]
    by_cases h' : ∃ w' ∈ ws', sliceStart numW w' s.count ≤ j ∧ j < sliceEndIdx numW w' s.count
    · have hcons : ∃ w'' ∈ w :: ws',
          sliceStart numW w'' s.count ≤ j ∧ j < sliceEndIdx numW w'' s.count := by
        obtain ⟨w', hw', hco⟩ := h'
        exact ⟨w', List.mem_cons_of_mem w hw', hco⟩
      simp only [if_pos h', if_pos hcons]
      exact ⟨trivial, trivial, trivial, trivial⟩
    · simp only [if_neg h']
      by_cases hw : sliceStart numW w s.count ≤ j ∧ j < sliceEndIdx numW w s.count
      · have hcons : ∃ w'' ∈ w :: ws',
            sliceStart numW w'' s.count ≤ j ∧ j < sliceEndIdx numW w'' s.count :=
          ⟨w, List.mem_cons_self w ws', hw⟩
        simp only [if_pos hw, if_pos hcons]
        exact ⟨trivial, trivial, trivial, trivial⟩
      · have hcons : ¬∃ w'' ∈ w :: ws',
            sliceStart numW w'' s.count ≤ j ∧ j < sliceEndIdx numW w'' s.count := by
          rintro ⟨w', hw', hco⟩
          rcases List.mem_cons.mp hw' with rfl | hmem
          · exact hw hco
          · exact h' ⟨w', hmem, hco⟩
        simp only [if_neg hw, if_neg hcons]
        exact ⟨trivial, trivial, trivial, trivial⟩

/-- C1: after either density pass — serial `computeDensityPressure` or the
parallel `computeDensitySlice` union over all worker slices — every particle
`i < particleCount` has `density(i) ≥ 0.1`, `density(i)` equal to
`1.0 + Σ q²` over all neighbors `j ≠ i` strictly within `H` (floor-clamped
to `0.1`), and `nearDensity(i)` equal to `1.0 + Σ q³`, where
`q = 1 - r/H` with `r` the code's hybrid exact/lookup square root. -/
theorem density_pass_spec (S : SqrtModel) (P : Params) (cols rows : ℕ)
    (hc : 1 ≤ cols) (hr : 1 ≤ rows) (s : PState) (df0 : DFields)
    (numW : ℕ) (hW : 1 ≤ numW) (hpc : s.count ≤ MAX_PARTICLES)
    (i : ℕ) (hi : i < s.count) :
    (1 / 10 ≤ (computeDensityPressure S P cols rows (gridList cols rows s) s df0).1.dens i
     ∧ (computeDensityPressure S P cols rows (gridList cols rows s) s df0).1.dens i
        = specDensity S s i
     ∧ (computeDensityPressure S P cols rows (gridList cols rows s) s df0).1.nearDens i
        = specNearDensity S s i)
    ∧ (1 / 10 ≤ (runDensitySlices S P cols rows (gridList cols rows s) s numW df0).dens i
     ∧ (runDensitySlices S P cols rows (gridList cols rows s) s numW df0).dens i
        = specDensity S s i
     ∧ (runDensitySlices S P cols rows (gridList cols rows s) s numW df0).nearDens i
        = specNearDensity S s i) := by
  obtain ⟨hspec, hspecN⟩ := densityAt_eq_spec S cols rows hc hr s i
  have hmem : i ∈ List.range s.count := List.mem_range.mpr hi
  constructor
  · rw [computeDensityPressure_fst]
    obtain ⟨h1, h2, _, _⟩ := foldl_densWrite_spec S P cols rows
      (gridList cols rows s) s (List.range s.count) df0 i
    rw [h1, h2, if_pos hmem, if_pos hmem]
    exact ⟨hspec ▸ densityAt_ge S cols rows (gridList cols rows s) s i, hspec, hspecN⟩
  · have hcov := slicesCover numW s.count i hW hpc hi
    obtain ⟨h1, h2, _, _⟩ := runSlicesFold_spec S P cols rows
      (gridList cols rows s) s numW (List.range numW) df0 i
    unfold runDensitySlices
    rw [h1, h2, if_pos hcov, if_pos hcov]
    exact ⟨hspec ▸ densityAt_ge S cols rows (gridList cols rows s) s i, hspec, hspecN⟩

/-! ### Concrete fixtures for witnesses and counterexamples

An 800×600 domain (`cols = ⌈800/35⌉ = 23`, `rows = ⌈600/35⌉ = 18`) holding
two particles 10 apart in the same grid cell; particle 1 moves at
1000 units/s in x.  With separation 100 ≥ 1 the code takes the `fastSqrt`
branch; the model instantiates it with the exact root 10 (the real table
returns ≈ 9.96; none of the statements below depend on which). -/

def sW : PState :=
  { px := fun i => if i = 0 then 10 else if i = 1 then 20 else 0
    py := fun _ => 10
    pvx := fun i => if i = 1 then 1000 else 0
    pvy := fun _ => 0
    count := 2 }

def SW : SqrtModel := { msqrt := fun _ => 0, fsqrt := fun _ => 10 }

def PW : Params :=
  { gasConst := 3000, nearGasConst := 5000, surfaceTension := 1000, visc := 5
    gravityX := 0, gravityY := 1200, width := 800, height := 600 }

def dfW : DFields :=
  { dens := fun _ => 0, nearDens := fun _ => 0
    press := fun _ => 0, nearPress := fun _ => 0 }

/-- Witness for C1 at the concrete two-particle configuration. -/
theorem density_pass_spec_witness :
    (computeDensityPressure SW PW 23 18 (gridList 23 18 sW) sW dfW).1.dens 0
      = specDensity SW sW 0
    ∧ 1 / 10 ≤ (runDensitySlices SW PW 23 18 (gridList 23 18 sW) sW 2 dfW).dens 0 := by
  have h := density_pass_spec SW PW 23 18 (by norm_num) (by norm_num) sW dfW 2
    (by norm_num) (by norm_num [sW, MAX_PARTICLES]) 0 (by norm_num [sW])
  exact ⟨h.1.2.1, h.2.1⟩

/-! ### Force passes

The serial `computeForces` (physics-worker.js lines 408-487) iterates the
cached neighbor pairs; the parallel `computeForcesSlice` (sub-worker.js
lines 153-228) re-walks the grid.  The per-pair pressure/cohesion formula is
identical in both; the viscosity stability ceiling and the
near-zero-separation handling are not. -/

/-- Serial viscosity coefficient
`Math.min(VISC * q / pDens, 0.5 / (DT / SUBSTEPS))`
(physics-worker.js lines 482-483). -/
def viscCoefSerial (visc q dens : ℚ) : ℚ :=
  min (visc * q / dens) (1 / 2 / (DT / SUBSTEPS))

/-- Parallel viscosity coefficient `Math.min(VISC * q / pDens, 107.0)`
(sub-worker.js lines 206-207; the hardcoded `107.0` is documented there as
`0.5 / (0.014/3)`). -/
def viscCoefParallel (visc q dens : ℚ) : ℚ :=
  min (visc * q / dens) 107

/-- The pressure-plus-cohesion contribution a directed pair adds to the
receiving particle's force accumulator:
`totalForce = (avgPress·q + avgNearPress·q²)/densI - surfaceTension·q·(1-q)`
applied as `-(totalForce)·(dx,dy)·invR` (identical formula in
physics-worker.js lines 471-480 and sub-worker.js lines 196-204;
`densI` is the receiving particle's density). -/
def pairPressForce (P : Params) (densI pressI pressJ nearPressI nearPressJ q dx dy invR : ℚ) :
    ℚ × ℚ :=
  let avgPress := (pressI + pressJ) * (1 / 2)
  let avgNearPress := (nearPressI + nearPressJ) * (1 / 2)
  let cohesion := P.surfaceTension * q * (1 - q)
  let totalForce := (avgPress * q + avgNearPress * q * q) / densI - cohesion
  (-(totalForce * dx * invR), -(totalForce * dy * invR))

/-- Domain-boundary spring force (identical in physics-worker.js lines
413-418 and sub-worker.js lines 218-223). -/
def wallBoundary (P : Params) (px py : ℚ) : ℚ × ℚ :=
  let wallMargin := PARTICLE_RADIUS * 2
  ((if px < wallMargin then (wallMargin - px) * WALL_STIFFNESS
    else if px > P.width - wallMargin then -((px - (P.width - wallMargin)) * WALL_STIFFNESS)
    else 0),
   (if py < wallMargin then (wallMargin - py) * WALL_STIFFNESS
    else if py > P.height - wallMargin then -((py - (P.height - wallMargin)) * WALL_STIFFNESS)
    else 0))

/-- A custom wall segment (`addWall` command). -/
structure Wall where
  x1 : ℚ
  y1 : ℚ
  x2 : ℚ
  y2 : ℚ
  thickness : ℚ
deriving DecidableEq

/-- Force one wall segment exerts on a particle (identical in
physics-worker.js lines 421-447 and 496-523; `wall.thickness || 8` falls
back to 8 for a zero thickness). -/
def wallSegForce (S : SqrtModel) (w : Wall) (px py : ℚ) : ℚ × ℚ :=
  let wdx := w.x2 - w.x1
  let wdy := w.y2 - w.y1
  let wLen2 := wdx * wdx + wdy * wdy
  if wLen2 < 1 / 100 then (0, 0) else
  let t := max 0 (min 1 (((px - w.x1) * wdx + (py - w.y1) * wdy) / wLen2))
  let closestX := w.x1 + t * wdx
  let closestY := w.y1 + t * wdy
  let distX := px - closestX
  let distY := py - closestY
  let d2 := distX * distX + distY * distY
  let wallThickness := if w.thickness = 0 then 8 else w.thickness
  let eff := wallThickness + PARTICLE_RADIUS
  if d2 < eff * eff ∧ d2 > 1 / 1000 then
    let dist := S.msqrt d2
    let overlap := eff - dist
    ((distX / dist) * overlap * WALL_STIFFNESS * (1 / 2),
     (distY / dist) * overlap * WALL_STIFFNESS * (1 / 2))
  else (0, 0)

/-- Accumulated custom-wall force on a particle. -/
def customWalls (S : SqrtModel) (ws : List Wall) (px py : ℚ) : ℚ × ℚ :=
  (ws.map (fun w => wallSegForce S w px py)).sum

/-- Initial per-particle force of the serial pass:
`p_fx[i] = wallFx + GRAVITY_X` where `wallFx` accumulates the boundary force
and every custom wall segment (physics-worker.js lines 410-451). -/
def baseForce (S : SqrtModel) (P : Params) (ws : List Wall) (s : PState) (i : ℕ) : ℚ × ℚ :=
  wallBoundary P (s.px i) (s.py i) + customWalls S ws (s.px i) (s.py i)
    + (P.gravityX, P.gravityY)

/-- Serial per-cached-pair update (physics-worker.js lines 454-485).  The
accumulator carries the force array and the xorshift consumption counter;
the counter advances only in the `r < 0.001` perturbation branch, which
draws two fresh values and falls back to `actualR = 0.01` when even the
perturbed separation is below 0.001. -/
def serialPairUpd (S : SqrtModel) (P : Params) (dens press nearPress : ℕ → ℚ)
    (s : PState) (rng : ℕ → ℚ)
    (acc : (ℕ → ℚ × ℚ) × ℕ) (e : NPair) : (ℕ → ℚ × ℚ) × ℕ :=
  let dx0 := s.px e.nj - s.px e.ni
  let dy0 := s.py e.nj - s.py e.ni
  let pd : ℚ × ℚ × ℚ × ℕ :=
    if e.nr < 1 / 1000 then
      let dx := (rng acc.2 - 1 / 2) * (1 / 10)
      let dy := (rng (acc.2 + 1) - 1 / 2) * (1 / 10)
      let aR := S.msqrt (dx * dx + dy * dy)
      (dx, dy, if aR < 1 / 1000 then 1 / 100 else aR, acc.2 + 2)
    else (dx0, dy0, e.nr, acc.2)
  let invR := 1 / pd.2.2.1
  let fP := pairPressForce P (dens e.ni) (press e.ni) (press e.nj)
      (nearPress e.ni) (nearPress e.nj) e.nq pd.1 pd.2.1 invR
  let fv := viscCoefSerial P.visc e.nq (dens e.ni)
  let dvi : ℚ × ℚ := (fv * (s.pvx e.nj - s.pvx e.ni), fv * (s.pvy e.nj - s.pvy e.ni))
  (Function.update acc.1 e.ni (acc.1 e.ni + fP + dvi), pd.2.2.2)

/-- Serial `computeForces` (physics-worker.js lines 408-487): initialize
every particle's force to boundary walls + custom walls + gravity, then
fold the cached neighbor pairs. -/
def computeForces (S : SqrtModel) (P : Params) (ws : List Wall) (df : DFields)
    (cache : List NPair) (s : PState) (rng : ℕ → ℚ) (f0 : ℕ → ℚ × ℚ) : ℕ → ℚ × ℚ :=
  let finit := (List.range s.count).foldl
    (fun f i => Function.update f i (baseForce S P ws s i)) f0
  (cache.foldl (serialPairUpd S P df.dens df.press df.nearPress s rng) (finit, 0)).1

/-- Parallel per-neighbor update (sub-worker.js lines 182-210).  The
accumulator carries `(fPress, fVisc, rng counter)`; the perturbation branch
fires on `r2 < 0.0001`, recomputes `r2` from the perturbed offsets (flooring
it at 0.0001), and `invR` falls to 0 unless `r > 0.001`. -/
def parNeighUpd (S : SqrtModel) (P : Params) (dens press nearPress : ℕ → ℚ)
    (s : PState) (rng : ℕ → ℚ) (i : ℕ)
    (acc : (ℚ × ℚ) × (ℚ × ℚ) × ℕ) (j : ℕ) : (ℚ × ℚ) × (ℚ × ℚ) × ℕ :=
  if i ≠ j then
    let dx0 := s.px j - s.px i
    let dy0 := s.py j - s.py i
    let r20 := dx0 * dx0 + dy0 * dy0
    if r20 < H2 then
      let pd : ℚ × ℚ × ℚ × ℕ :=
        if r20 < 1 / 10000 then
          let dx := (rng acc.2.2 - 1 / 2) * (1 / 10)
          let dy := (rng (acc.2.2 + 1) - 1 / 2) * (1 / 10)
          let rr := dx * dx + dy * dy
          (dx, dy, if rr < 1 / 10000 then 1 / 10000 else rr, acc.2.2 + 2)
        else (dx0, dy0, r20, acc.2.2)
      let r := rOf S pd.2.2.1
      let q := 1 - r / H
      let invR := if r > 1 / 1000 then 1 / r else 0
      let fP := pairPressForce P (dens i) (press i) (press j)
          (nearPress i) (nearPress j) q pd.1 pd.2.1 invR
      let fv := viscCoefParallel P.visc q (dens i)
      ((acc.1.1 + fP.1, acc.1.2 + fP.2),
       (acc.2.1.1 + fv * (s.pvx j - s.pvx i), acc.2.1.2 + fv * (s.pvy j - s.pvy i)),
       pd.2.2.2)
    else acc
  else acc

/-- One particle of the parallel force pass:
`s_fx[i] = fPressX + fViscX + wallFx + GRAVITY_X` (sub-worker.js lines
162-226), returning the written value and the advanced rng counter. -/
def forceParAt (S : SqrtModel) (P : Params) (dens press nearPress : ℕ → ℚ)
    (cols rows : ℕ) (g : ℕ → List ℕ) (s : PState) (rng : ℕ → ℚ)
    (i : ℕ) (k0 : ℕ) : (ℚ × ℚ) × ℕ :=
  let res := (candidates cols rows g s i).foldl
    (parNeighUpd S P dens press nearPress s rng i) ((0, 0), (0, 0), k0)
  (res.1 + res.2.1 + wallBoundary P (s.px i) (s.py i) + (P.gravityX, P.gravityY),
   res.2.2)

/-- Per-particle step of the slice loop: write the computed force into
`s_fx[i]`/`s_fy[i]` and carry the worker's rng counter forward. -/
def forcesSliceStep (S : SqrtModel) (P : Params) (dens press nearPress : ℕ → ℚ)
    (cols rows : ℕ) (g : ℕ → List ℕ) (s : PState) (rng : ℕ → ℚ)
    (acc : (ℕ → ℚ × ℚ) × ℕ) (i : ℕ) : (ℕ → ℚ × ℚ) × ℕ :=
  let r := forceParAt S P dens press nearPress cols rows g s rng i acc.2
  (Function.update acc.1 i r.1, r.2)

/-- Parallel `computeForcesSlice(start, end, ...)` over one worker slice. -/
def computeForcesSlice (S : SqrtModel) (P : Params) (dens press nearPress : ℕ → ℚ)
    (cols rows : ℕ) (g : ℕ → List ℕ) (s : PState) (rng : ℕ → ℚ) (a b : ℕ)
    (acc : (ℕ → ℚ × ℚ) × ℕ) : (ℕ → ℚ × ℚ) × ℕ :=
  (List.range' a (b - a)).foldl
    (forcesSliceStep S P dens press nearPress cols rows g s rng) acc

/-- The force phase of the parallel path: every worker executes its slice
(with its own xorshift stream `rngs w` and fresh counter). -/
def runForcesSlices (S : SqrtModel) (P : Params) (dens press nearPress : ℕ → ℚ)
    (cols rows : ℕ) (g : ℕ → List ℕ) (s : PState) (numW : ℕ)
    (rngs : ℕ → ℕ → ℚ) (f0 : ℕ → ℚ × ℚ) : ℕ → ℚ × ℚ :=
  (List.range numW).foldl
    (fun f w => (computeForcesSlice S P dens press nearPress cols rows g s (rngs w)
      (sliceStart numW w s.count) (sliceEndIdx numW w s.count) (f, 0)).1) f0

/-- `applyCustomWallForces` (physics-worker.js lines 493-525): after the
parallel force barrier the coordinator adds the custom wall forces into the
already-computed accumulators. -/
def applyCustomWallForces (S : SqrtModel) (ws : List Wall) (s : PState)
    (f : ℕ → ℚ × ℚ) : ℕ → ℚ × ℚ :=
  (List.range s.count).foldl
    (fun f i => Function.update f i (f i + customWalls S ws (s.px i) (s.py i))) f

/-! ### Serial / parallel force equivalence under tame configurations -/

theorem foldl_update_indep {α : Type} (v : ℕ → α) (l : List ℕ) (f0 : ℕ → α) (j : ℕ) :
    (l.foldl (fun f i => Function.update f i (v i)) f0) j
      = if j ∈ l then v j else f0 j := by
  induction l generalizing f0 with
  | nil => simp
  | cons a t ih =>
    rw [List.foldl_cons, ih]
    by_cases ht : j ∈ t
    · simp [ht]
    · by_cases ha : j = a
      · subst ha
        simp [ht]
      · simp [ht, ha, Function.update_noteq ha]

theorem foldl_update_selfadd (g : ℕ → ℚ × ℚ) (l : List ℕ) (hnd : l.Nodup)
    (f0 : ℕ → ℚ × ℚ) (j : ℕ) :
    (l.foldl (fun f i => Function.update f i (f i + g i)) f0) j
      = if j ∈ l then f0 j + g j else f0 j := by
  induction l generalizing f0 with
  | nil => simp
  | cons a t ih =>
    rw [List.foldl_cons, ih hnd.of_cons _]
    have hat : a ∉ t := (List.nodup_cons.mp hnd).1
    by_cases ht : j ∈ t
    · have hja : j ≠ a := fun h => hat (h ▸ ht)
      simp [ht, Function.update_noteq hja]
    · by_cases ha : j = a
      · subst ha
        simp [ht]
      · simp [ht, ha, Function.update_noteq ha]

/-- All directed neighbor pairs, in serial processing order. -/
def allPairs (S : SqrtModel) (cols rows : ℕ) (g : ℕ → List ℕ) (s : PState) : List NPair :=
  (List.range s.count).flatMap (fun i => toPairs i (neighEntries S cols rows g s i))

theorem take_trunc {α : Type} (n : ℕ) (c pa rest : List α) (h : c.length ≤ n) :
    ((c ++ pa.take (n - c.length)) ++ rest).take n = (c ++ (pa ++ rest)).take n := by
  rw [List.append_assoc]
  rw [List.take_append_eq_append_take, List.take_append_eq_append_take,
    List.take_of_length_le h, List.take_append_eq_append_take,
    List.take_append_eq_append_take, List.take_take, List.length_take]
  have h2 : (n - c.length) ⊓ (n - c.length) = n - c.length := by omega
  have h3 : n - c.length - (n - c.length) ⊓ pa.length = n - c.length - pa.length := by
    omega
  rw [h2, h3, List.take_of_length_le h]

/-- The serial pass's neighbor cache is the MAX_NEIGHBORS-prefix of the full
directed pair list. -/
theorem computeDensityPressure_snd (S : SqrtModel) (P : Params) (cols rows : ℕ)
    (g : ℕ → List ℕ) (s : PState) (df0 : DFields) :
    (computeDensityPressure S P cols rows g s df0).2
      = (allPairs S cols rows g s).take MAX_NEIGHBORS := by
  unfold computeDensityPressure allPairs
  generalize List.range s.count = l
  suffices h : ∀ (l : List ℕ) (df : DFields) (c : List NPair),
      c.length ≤ MAX_NEIGHBORS →
      (l.foldl (densBody S P cols rows g s) (df, c)).2
        = (c ++ l.flatMap (fun i => toPairs i (neighEntries S cols rows g s i))).take
            MAX_NEIGHBORS by
    rw [h l df0 [] (by norm_num)]
    simp
  intro l
  induction l with
  | nil =>
    intro df c hlen
    simp [List.take_of_length_le hlen]
  | cons a t ih =>
    intro df c hlen
    rw [List.foldl_cons, List.flatMap_cons]
    have hstep : (densBody S P cols rows g s (df, c) a).2
        = c ++ (toPairs a (neighEntries S cols rows g s a)).take (MAX_NEIGHBORS - c.length) :=
      rfl
    have hlen2 : (c ++ (toPairs a (neighEntries S cols rows g s a)).take
        (MAX_NEIGHBORS - c.length)).length ≤ MAX_NEIGHBORS := by
      rw [List.length_append, List.length_take]
      omega
    have heta : densBody S P cols rows g s (df, c) a
        = ((densBody S P cols rows g s (df, c) a).1,
           (densBody S P cols rows g s (df, c) a).2) := rfl
    rw [heta, hstep, ih _ _ hlen2, take_trunc MAX_NEIGHBORS c _ _ hlen]

/-- Serial per-pair force term at a cached record, when the perturbation
branch does not fire: `-(totalForce)·(dx,dy)/r` plus the clamped viscosity
times the velocity difference. -/
def serialPairTerm (P : Params) (dens press nearPress : ℕ → ℚ)
    (s : PState) (e : NPair) : ℚ × ℚ :=
  let dx0 := s.px e.nj - s.px e.ni
  let dy0 := s.py e.nj - s.py e.ni
  let invR := 1 / e.nr
  let fP := pairPressForce P (dens e.ni) (press e.ni) (press e.nj)
      (nearPress e.ni) (nearPress e.nj) e.nq dx0 dy0 invR
  let fv := viscCoefSerial P.visc e.nq (dens e.ni)
  fP + (fv * (s.pvx e.nj - s.pvx e.ni), fv * (s.pvy e.nj - s.pvy e.ni))

theorem serialPairUpd_noperturb (S : SqrtModel) (P : Params)
    (dens press nearPress : ℕ → ℚ) (s : PState) (rng : ℕ → ℚ)
    (acc : (ℕ → ℚ × ℚ) × ℕ) (e : NPair) (h : ¬ e.nr < 1 / 1000) :
    serialPairUpd S P dens press nearPress s rng acc e
      = (Function.update acc.1 e.ni
          (acc.1 e.ni + serialPairTerm P dens press nearPress s e), acc.2) := by
  simp only [serialPairUpd, serialPairTerm, if_neg h]
  rw [add_assoc]

theorem serialFold_noperturb (S : SqrtModel) (P : Params)
    (dens press nearPress : ℕ → ℚ) (s : PState) (rng : ℕ → ℚ)
    (cache : List NPair) (hnp : ∀ e ∈ cache, ¬ e.nr < 1 / 1000)
    (f : ℕ → ℚ × ℚ) (k j : ℕ) :
    ((cache.foldl (serialPairUpd S P dens press nearPress s rng) (f, k)).1) j
      = f j + ((cache.filter (fun e => decide (e.ni = j))).map
          (serialPairTerm P dens press nearPress s)).sum := by
  induction cache generalizing f k with
  | nil => simp
  | cons e t ih =>
    rw [List.foldl_cons,
      serialPairUpd_noperturb S P dens press nearPress s rng (f, k) e
        (hnp e (List.mem_cons_self e t)),
      ih (fun e' he' => hnp e' (List.mem_cons_of_mem e he')) _ _]
    rw [List.filter_cons]
    by_cases hj : e.ni = j
    · rw [if_pos (by simp [hj]), List.map_cons, List.sum_cons]
      subst hj
      rw [Function.update_same]
      rw [add_assoc]
    · rw [if_neg (by simp [hj]), Function.update_noteq (Ne.symm hj)]

/-- Parallel per-pair pressure/cohesion term at an unperturbed pair. -/
def parPressTerm (S : SqrtModel) (P : Params) (dens press nearPress : ℕ → ℚ)
    (s : PState) (i j : ℕ) : ℚ × ℚ :=
  let r := rOf S (dist2 s i j)
  let q := 1 - r / H
  let invR := if r > 1 / 1000 then 1 / r else 0
  pairPressForce P (dens i) (press i) (press j) (nearPress i) (nearPress j) q
    (s.px j - s.px i) (s.py j - s.py i) invR

/-- Parallel per-pair viscosity term at an unperturbed pair. -/
def parViscTerm (S : SqrtModel) (P : Params) (dens : ℕ → ℚ) (s : PState) (i j : ℕ) :
    ℚ × ℚ :=
  let q := 1 - rOf S (dist2 s i j) / H
  let fv := viscCoefParallel P.visc q (dens i)
  (fv * (s.pvx j - s.pvx i), fv * (s.pvy j - s.pvy i))

theorem parNeighUpd_hit (S : SqrtModel) (P : Params) (dens press nearPress : ℕ → ℚ)
    (s : PState) (rng : ℕ → ℚ) (i : ℕ) (acc : (ℚ × ℚ) × (ℚ × ℚ) × ℕ) (j : ℕ)
    (hij : i ≠ j) (hH2 : dist2 s i j < H2) (hnp : ¬ dist2 s i j < 1 / 10000) :
    parNeighUpd S P dens press nearPress s rng i acc j
      = (acc.1 + parPressTerm S P dens press nearPress s i j,
         acc.2.1 + parViscTerm S P dens s i j, acc.2.2) := by
  unfold dist2 at hH2 hnp
  simp only [parNeighUpd, parPressTerm, parViscTerm, if_pos hij, if_pos hH2,
    if_neg hnp, dist2]
  rfl

theorem parNeighUpd_miss (S : SqrtModel) (P : Params) (dens press nearPress : ℕ → ℚ)
    (s : PState) (rng : ℕ → ℚ) (i : ℕ) (acc : (ℚ × ℚ) × (ℚ × ℚ) × ℕ) (j : ℕ)
    (h : ¬(i ≠ j ∧ dist2 s i j < H2)) :
    parNeighUpd S P dens press nearPress s rng i acc j = acc := by
  by_cases hij : i ≠ j
  · have hH2 : ¬ dist2 s i j < H2 := fun hh => h ⟨hij, hh⟩
    unfold dist2 at hH2
    simp only [parNeighUpd, if_pos hij, if_neg hH2]
  · simp only [parNeighUpd, if_neg hij]

theorem parFold_noperturb (S : SqrtModel) (P : Params) (dens press nearPress : ℕ → ℚ)
    (s : PState) (rng : ℕ → ℚ) (i : ℕ) (l : List ℕ)
    (hl : ∀ j ∈ l, i ≠ j → dist2 s i j < H2 → ¬ dist2 s i j < 1 / 10000)
    (p v : ℚ × ℚ) (k : ℕ) :
    l.foldl (parNeighUpd S P dens press nearPress s rng i) (p, v, k)
      = (p + ((l.filter (fun j => decide (i ≠ j ∧ dist2 s i j < H2))).map
            (parPressTerm S P dens press nearPress s i)).sum,
         v + ((l.filter (fun j => decide (i ≠ j ∧ dist2 s i j < H2))).map
            (parViscTerm S P dens s i)).sum, k) := by
  induction l generalizing p v with
  | nil => simp
  | cons j t ih =>
    rw [List.foldl_cons, List.filter_cons]
    by_cases hP : i ≠ j ∧ dist2 s i j < H2
    · rw [parNeighUpd_hit S P dens press nearPress s rng i (p, v, k) j hP.1 hP.2
        (hl j (List.mem_cons_self j t) hP.1 hP.2)]
      rw [ih (fun j' hj' => hl j' (List.mem_cons_of_mem j hj'))]
      rw [if_pos (by simp [hP.1, hP.2])]
      rw [List.map_cons, List.sum_cons, List.map_cons, List.sum_cons]
      rw [add_assoc, add_assoc]
    · rw [parNeighUpd_miss S P dens press nearPress s rng i (p, v, k) j hP]
      rw [ih (fun j' hj' => hl j' (List.mem_cons_of_mem j hj'))]
      rw [if_neg (by simpa using hP)]

/-- The value the parallel force pass writes for particle `i` (when no pair
is perturbed): `ΣfPress + ΣfVisc + wallBoundary + gravity`. -/
def parForceVal (S : SqrtModel) (P : Params) (dens press nearPress : ℕ → ℚ)
    (cols rows : ℕ) (g : ℕ → List ℕ) (s : PState) (i : ℕ) : ℚ × ℚ :=
  (((candidates cols rows g s i).filter (fun j => decide (i ≠ j ∧ dist2 s i j < H2))).map
      (parPressTerm S P dens press nearPress s i)).sum
  + (((candidates cols rows g s i).filter (fun j => decide (i ≠ j ∧ dist2 s i j < H2))).map
      (parViscTerm S P dens s i)).sum
  + wallBoundary P (s.px i) (s.py i) + (P.gravityX, P.gravityY)

theorem forceParAt_spec (S : SqrtModel) (P : Params) (dens press nearPress : ℕ → ℚ)
    (cols rows : ℕ) (g : ℕ → List ℕ) (s : PState) (rng : ℕ → ℚ) (i k0 : ℕ)
    (hl : ∀ j ∈ candidates cols rows g s i,
      i ≠ j → dist2 s i j < H2 → ¬ dist2 s i j < 1 / 10000) :
    forceParAt S P dens press nearPress cols rows g s rng i k0
      = (parForceVal S P dens press nearPress cols rows g s i, k0) := by
  unfold forceParAt parForceVal
  rw [parFold_noperturb S P dens press nearPress s rng i _ hl (0, 0) (0, 0) k0]
  simp

theorem forcesSliceFold_spec (S : SqrtModel) (P : Params) (dens press nearPress : ℕ → ℚ)
    (cols rows : ℕ) (g : ℕ → List ℕ) (s : PState) (rng : ℕ → ℚ) (l : List ℕ)
    (hl : ∀ i' ∈ l, ∀ j ∈ candidates cols rows g s i',
      i' ≠ j → dist2 s i' j < H2 → ¬ dist2 s i' j < 1 / 10000)
    (f : ℕ → ℚ × ℚ) (k : ℕ) :
    (∀ j, (l.foldl (forcesSliceStep S P dens press nearPress cols rows g s rng) (f, k)).1 j
      = if j ∈ l then parForceVal S P dens press nearPress cols rows g s j else f j)
    ∧ (l.foldl (forcesSliceStep S P dens press nearPress cols rows g s rng) (f, k)).2 = k := by
  induction l generalizing f k with
  | nil => simp
  | cons a t ih =>
    rw [List.foldl_cons]
    have hstep : forcesSliceStep S P dens press nearPress cols rows g s rng (f, k) a
        = (Function.update f a (parForceVal S P dens press nearPress cols rows g s a), k) := by
      unfold forcesSliceStep
      rw [forceParAt_spec S P dens press nearPress cols rows g s rng a k
        (hl a (List.mem_cons_self a t))]
    rw [hstep]
    obtain ⟨ih1, ih2⟩ := ih (fun i' hi' => hl i' (List.mem_cons_of_mem a hi'))
      (Function.update f a (parForceVal S P dens press nearPress cols rows g s a)) k
    refine ⟨fun j => ?_, ih2⟩
    rw [ih1 j]
    by_cases ht : j ∈ t
    · simp [ht]
    · by_cases ha : j = a
      · subst ha
        simp [ht]
      · simp [ht, ha, Function.update_noteq ha]

theorem applyCustomWallForces_spec (S : SqrtModel) (ws : List Wall) (s : PState)
    (f : ℕ → ℚ × ℚ) (j : ℕ) :
    applyCustomWallForces S ws s f j
      = if j < s.count then f j + customWalls S ws (s.px j) (s.py j) else f j := by
  unfold applyCustomWallForces
  rw [foldl_update_selfadd _ _ (List.nodup_range _) f j]
  rw [if_congr (List.mem_range) rfl rfl]

theorem sum_map_add {α : Type} (l : List α) (f g : α → ℚ × ℚ) :
    (l.map (fun x => f x + g x)).sum = (l.map f).sum + (l.map g).sum := by
  induction l with
  | nil => simp
  | cons a t ih =>
    simp only [List.map_cons, List.sum_cons, ih]
    abel

theorem runForcesFold_spec (S : SqrtModel) (P : Params) (dens press nearPress : ℕ → ℚ)
    (cols rows : ℕ) (g : ℕ → List ℕ) (s : PState) (numW : ℕ) (rngs : ℕ → ℕ → ℚ)
    (htame : ∀ i' < s.count, ∀ j ∈ candidates cols rows g s i',
      i' ≠ j → dist2 s i' j < H2 → ¬ dist2 s i' j < 1 / 10000)
    (ws : List ℕ) (f0 : ℕ → ℚ × ℚ) (j : ℕ) :
    (ws.foldl (fun f w => (computeForcesSlice S P dens press nearPress cols rows g s (rngs w)
        (sliceStart numW w s.count) (sliceEndIdx numW w s.count) (f, 0)).1) f0) j
      = if ∃ w ∈ ws, sliceStart numW w s.count ≤ j ∧ j < sliceEndIdx numW w s.count
        then parForceVal S P dens press nearPress cols rows g s j else f0 j := by
  induction ws generalizing f0 with
  | nil => simp
  | cons w ws' ih =>
    rw [List.foldl_cons]
    have hslice : ∀ f : ℕ → ℚ × ℚ,
        (computeForcesSlice S P dens press nearPress cols rows g s (rngs w)
          (sliceStart numW w s.count) (sliceEndIdx numW w s.count) (f, 0)).1 j
        = if sliceStart numW w s.count ≤ j ∧ j < sliceEndIdx numW w s.count
          then parForceVal S P dens press nearPress cols rows g s j else f j := by
      intro f
      unfold computeForcesSlice
      have hin : ∀ i' ∈ List.range' (sliceStart numW w s.count)
          (sliceEndIdx numW w s.count - sliceStart numW w s.count),
          ∀ j' ∈ candidates cols rows g s i',
            i' ≠ j' → dist2 s i' j' < H2 → ¬ dist2 s i' j' < 1 / 10000 := by
        intro i' hi'
        rw [List.mem_range'_1] at hi'
        have : i' < s.count := by
          have hle : sliceEndIdx numW w s.count ≤ s.count := min_le_right _ _
          omega
        exact htame i' this
      obtain ⟨h1, _⟩ := forcesSliceFold_spec S P dens press nearPress cols rows g s
        (rngs w) _ hin f 0
      have hmem : (j ∈ List.range' (sliceStart numW w s.count)
            (sliceEndIdx numW w s.count - sliceStart numW w s.count))
          ↔ (sliceStart numW w s.count ≤ j ∧ j < sliceEndIdx numW w s.count) := by
        rw [List.mem_range'_1]
        omega
      rw [h1 j, if_congr hmem rfl rfl]
    rw [ih ((computeForcesSlice S P dens press nearPress cols rows g s (rngs w)
        (sliceStart numW w s.count) (sliceEndIdx numW w s.count) (f0, 0)).1), hslice f0]
    by_cases h' : ∃ w' ∈ ws', sliceStart numW w' s.count ≤ j ∧ j < sliceEndIdx numW w' s.count
    · have hcons : ∃ w'' ∈ w :: ws',
          sliceStart numW w'' s.count ≤ j ∧ j < sliceEndIdx numW w'' s.count := by
        obtain ⟨w', hw', hco⟩ := h'
        exact ⟨w', List.mem_cons_of_mem w hw', hco⟩
      simp only [if_pos h', if_pos hcons]
    · simp only [if_neg h']
      by_cases hw : sliceStart numW w s.count ≤ j ∧ j < sliceEndIdx numW w s.count
      · have hcons : ∃ w'' ∈ w :: ws',
            sliceStart numW w'' s.count ≤ j ∧ j < sliceEndIdx numW w'' s.count :=
          ⟨w, List.mem_cons_self w ws', hw⟩
        simp only [if_pos hw, if_pos hcons]
      · have hcons : ¬∃ w'' ∈ w :: ws',
            sliceStart numW w'' s.count ≤ j ∧ j < sliceEndIdx numW w'' s.count := by
          rintro ⟨w', hw', hco⟩
          rcases List.mem_cons.mp hw' with rfl | hmem
          · exact hw hco
          · exact h' ⟨w', hmem, hco⟩
        simp only [if_neg hw, if_neg hcons]

/-- Every cached pair record comes from a directed in-range neighbor pair. -/
theorem allPairs_elim (S : SqrtModel) (cols rows : ℕ) (g : ℕ → List ℕ) (s : PState)
    (e : NPair) (he : e ∈ allPairs S cols rows g s) :
    ∃ i j : ℕ, i < s.count ∧ j ∈ candidates cols rows g s i ∧ i ≠ j
      ∧ dist2 s i j < H2
      ∧ e = ⟨i, j, rOf S (dist2 s i j), qOf S (dist2 s i j)⟩ := by
  unfold allPairs at he
  rw [List.mem_flatMap] at he
  obtain ⟨i, hi, hei⟩ := he
  rw [List.mem_range] at hi
  unfold toPairs at hei
  rw [neighEntries_eq_map_filter, List.map_map, List.mem_map] at hei
  obtain ⟨j, hj, rfl⟩ := hei
  rw [List.mem_filter, decide_eq_true_eq] at hj
  exact ⟨i, j, hi, hj.1, hj.2.1, hj.2.2, rfl⟩

theorem toPairs_filter_self (i : ℕ) (es : List (ℕ × ℚ × ℚ)) :
    (toPairs i es).filter (fun e => decide (e.ni = i)) = toPairs i es := by
  rw [List.filter_eq_self]
  intro e he
  unfold toPairs at he
  rw [List.mem_map] at he
  obtain ⟨x, _, rfl⟩ := he
  simp

theorem toPairs_filter_other (i i' : ℕ) (hne : i' ≠ i) (es : List (ℕ × ℚ × ℚ)) :
    (toPairs i' es).filter (fun e => decide (e.ni = i)) = [] := by
  rw [List.filter_eq_nil_iff]
  intro e he
  unfold toPairs at he
  rw [List.mem_map] at he
  obtain ⟨x, _, rfl⟩ := he
  simp [hne]

/-- Filtering the full pair list to first index `i` recovers exactly
particle `i`'s directed neighbor records. -/
theorem allPairs_filter (S : SqrtModel) (cols rows : ℕ) (g : ℕ → List ℕ) (s : PState)
    (i : ℕ) (hi : i < s.count) :
    (allPairs S cols rows g s).filter (fun e => decide (e.ni = i))
      = toPairs i (neighEntries S cols rows g s i) := by
  unfold allPairs
  suffices h : ∀ l : List ℕ, l.Nodup →
      ((l.flatMap (fun i' => toPairs i' (neighEntries S cols rows g s i'))).filter
        (fun e => decide (e.ni = i)))
      = if i ∈ l then toPairs i (neighEntries S cols rows g s i) else [] by
    rw [h (List.range s.count) (List.nodup_range _),
      if_pos (List.mem_range.mpr hi)]
  intro l hnd
  induction l with
  | nil => simp
  | cons a t ih =>
    rw [List.flatMap_cons, List.filter_append, ih hnd.of_cons]
    by_cases ha : a = i
    · subst ha
      have hat : a ∉ t := (List.nodup_cons.mp hnd).1
      rw [toPairs_filter_self, if_neg hat, if_pos (List.mem_cons_self a t),
        List.append_nil]
    · rw [toPairs_filter_other i a ha]
      by_cases hit : i ∈ t
      · rw [if_pos hit, if_pos (List.mem_cons_of_mem a hit), List.nil_append]
      · rw [if_neg hit, if_neg (by simp [hit, Ne.symm ha]), List.nil_append]

/-- Serial force value for particle `i` when no cached pair perturbs. -/
theorem computeForces_spec (S : SqrtModel) (P : Params) (ws : List Wall) (df : DFields)
    (cols rows : ℕ) (g : ℕ → List ℕ) (s : PState) (rng : ℕ → ℚ) (f0 : ℕ → ℚ × ℚ)
    (i : ℕ) (hi : i < s.count)
    (hnp : ∀ e ∈ allPairs S cols rows g s, ¬ e.nr < 1 / 1000) :
    computeForces S P ws df (allPairs S cols rows g s) s rng f0 i
      = baseForce S P ws s i
        + ((toPairs i (neighEntries S cols rows g s i)).map
            (serialPairTerm P df.dens df.press df.nearPress s)).sum := by
  unfold computeForces
  rw [serialFold_noperturb S P df.dens df.press df.nearPress s rng _ hnp _ 0 i]
  rw [foldl_update_indep (baseForce S P ws s) (List.range s.count) f0 i,
    if_pos (List.mem_range.mpr hi), allPairs_filter S cols rows g s i hi]

/-- One directed pair contributes the same force in both paths, provided its
root exceeds the parallel `invR` threshold and its viscosity coefficient
stays below the serial ceiling. -/
theorem pairTerm_eq (S : SqrtModel) (P : Params) (dens press nearPress : ℕ → ℚ)
    (s : PState) (i j : ℕ)
    (hr : 1 / 1000 < rOf S (dist2 s i j))
    (hvisc : P.visc * (1 - rOf S (dist2 s i j) / H) / dens i ≤ 1 / 2 / (DT / SUBSTEPS)) :
    serialPairTerm P dens press nearPress s
        ⟨i, j, rOf S (dist2 s i j), qOf S (dist2 s i j)⟩
      = parPressTerm S P dens press nearPress s i j + parViscTerm S P dens s i j := by
  have hlim : (1 : ℚ) / 2 / (DT / SUBSTEPS) = 500 / 7 := by
    norm_num [DT, SUBSTEPS]
  have hser : viscCoefSerial P.visc (1 - rOf S (dist2 s i j) / H) (dens i)
      = P.visc * (1 - rOf S (dist2 s i j) / H) / dens i := by
    unfold viscCoefSerial
    exact min_eq_left hvisc
  have hpar : viscCoefParallel P.visc (1 - rOf S (dist2 s i j) / H) (dens i)
      = P.visc * (1 - rOf S (dist2 s i j) / H) / dens i := by
    unfold viscCoefParallel
    refine min_eq_left ?_
    rw [hlim] at hvisc
    linarith
  unfold serialPairTerm parPressTerm parViscTerm qOf
  simp only [if_pos hr]
  rw [hser, hpar]

/-- A configuration is tame for given density values when every directed
in-range neighbor pair (i) is at least 0.0001 apart in squared distance
(neither path's perturbation branch fires), (ii) has computed root above
0.001 (the parallel `invR` guard passes), and (iii) has viscosity
coefficient at most the serial ceiling `0.5/(DT/SUBSTEPS)` (both clamps are
inactive). -/
def Tame (S : SqrtModel) (P : Params) (dens : ℕ → ℚ) (cols rows : ℕ)
    (g : ℕ → List ℕ) (s : PState) : Prop :=
  ∀ i, i < s.count → ∀ j ∈ candidates cols rows g s i, i ≠ j → dist2 s i j < H2 →
    1 / 10000 ≤ dist2 s i j
    ∧ 1 / 1000 < rOf S (dist2 s i j)
    ∧ P.visc * (1 - rOf S (dist2 s i j) / H) / dens i ≤ 1 / 2 / (DT / SUBSTEPS)

/-- The serial and parallel density passes agree on all four output arrays
— as whole functions, stale entries included. -/
theorem densityFields_funext (S : SqrtModel) (P : Params) (cols rows : ℕ)
    (g : ℕ → List ℕ) (s : PState) (df0 : DFields) (numW : ℕ)
    (hW : 1 ≤ numW) (hpc : s.count ≤ MAX_PARTICLES) :
    (computeDensityPressure S P cols rows g s df0).1.dens
      = (runDensitySlices S P cols rows g s numW df0).dens
    ∧ (computeDensityPressure S P cols rows g s df0).1.nearDens
      = (runDensitySlices S P cols rows g s numW df0).nearDens
    ∧ (computeDensityPressure S P cols rows g s df0).1.press
      = (runDensitySlices S P cols rows g s numW df0).press
    ∧ (computeDensityPressure S P cols rows g s df0).1.nearPress
      = (runDensitySlices S P cols rows g s numW df0).nearPress := by
  have hcov : ∀ j, (∃ w ∈ List.range numW,
      sliceStart numW w s.count ≤ j ∧ j < sliceEndIdx numW w s.count)
      ↔ j ∈ List.range s.count := by
    intro j
    rw [List.mem_range]
    constructor
    · rintro ⟨w, _, h1, h2⟩
      have hle : sliceEndIdx numW w s.count ≤ s.count := min_le_right _ _
      omega
    · intro hj
      exact slicesCover numW s.count j hW hpc hj
  refine ⟨funext fun j => ?_, funext fun j => ?_, funext fun j => ?_, funext fun j => ?_⟩
  all_goals {
    rw [computeDensityPressure_fst]
    obtain ⟨h1, h2, h3, h4⟩ := foldl_densWrite_spec S P cols rows g s (List.range s.count) df0 j
    obtain ⟨p1, p2, p3, p4⟩ := runSlicesFold_spec S P cols rows g s numW (List.range numW) df0 j
    unfold runDensitySlices
    first
      | (rw [h1, p1, if_congr (hcov j) rfl rfl])
      | (rw [h2, p2, if_congr (hcov j) rfl rfl])
      | (rw [h3, p3, if_congr (hcov j) rfl rfl])
      | (rw [h4, p4, if_congr (hcov j) rfl rfl]) }

/-- C2 (amended): for an identical configuration, identical parameters and
identical initial array contents, the serial path (`computeDensityPressure`
then `computeForces`) and the parallel path (`computeDensitySlice` /
`computeForcesSlice` over all worker slices, then `applyCustomWallForces`)
produce exactly equal density, near-density, pressure and near-pressure
arrays, and — provided the configuration is tame (no near-zero pair and no
viscosity-ceiling hit) and the neighbor cache does not overflow — exactly
equal per-particle forces. -/
theorem serial_parallel_equiv (S : SqrtModel) (P : Params) (cols rows : ℕ)
    (g : ℕ → List ℕ) (s : PState) (df0 : DFields) (ws : List Wall)
    (f0 : ℕ → ℚ × ℚ) (rngS : ℕ → ℚ) (rngP : ℕ → ℕ → ℚ) (numW : ℕ)
    (hW : 1 ≤ numW) (hpc : s.count ≤ MAX_PARTICLES)
    (htame : Tame S P (computeDensityPressure S P cols rows g s df0).1.dens cols rows g s)
    (hcap : (allPairs S cols rows g s).length ≤ MAX_NEIGHBORS)
    (i : ℕ) (hi : i < s.count) :
    ((computeDensityPressure S P cols rows g s df0).1.dens
        = (runDensitySlices S P cols rows g s numW df0).dens
      ∧ (computeDensityPressure S P cols rows g s df0).1.nearDens
        = (runDensitySlices S P cols rows g s numW df0).nearDens
      ∧ (computeDensityPressure S P cols rows g s df0).1.press
        = (runDensitySlices S P cols rows g s numW df0).press
      ∧ (computeDensityPressure S P cols rows g s df0).1.nearPress
        = (runDensitySlices S P cols rows g s numW df0).nearPress)
    ∧ computeForces S P ws (computeDensityPressure S P cols rows g s df0).1
        (computeDensityPressure S P cols rows g s df0).2 s rngS f0 i
      = applyCustomWallForces S ws s
          (runForcesSlices S P
            (runDensitySlices S P cols rows g s numW df0).dens
            (runDensitySlices S P cols rows g s numW df0).press
            (runDensitySlices S P cols rows g s numW df0).nearPress
            cols rows g s numW rngP f0) i := by
  obtain ⟨e1, e2, e3, e4⟩ := densityFields_funext S P cols rows g s df0 numW hW hpc
  refine ⟨⟨e1, e2, e3, e4⟩, ?_⟩
  rw [← e1, ← e3, ← e4]
  have hcache : (computeDensityPressure S P cols rows g s df0).2
      = allPairs S cols rows g s := by
    rw [computeDensityPressure_snd, List.take_of_length_le hcap]
  rw [hcache]
  have hnp : ∀ e ∈ allPairs S cols rows g s, ¬ e.nr < 1 / 1000 := by
    intro e he
    obtain ⟨i', j', hi', hj', hne, hH2, rfl⟩ := allPairs_elim S cols rows g s e he
    exact not_lt.mpr (le_of_lt (htame i' hi' j' hj' hne hH2).2.1)
  have htame' : ∀ i' < s.count, ∀ j ∈ candidates cols rows g s i',
      i' ≠ j → dist2 s i' j < H2 → ¬ dist2 s i' j < 1 / 10000 := by
    intro i' hi' j hj hne hH2
    exact not_lt.mpr (htame i' hi' j hj hne hH2).1
  rw [computeForces_spec S P ws _ cols rows g s rngS f0 i hi hnp]
  rw [applyCustomWallForces_spec]
  rw [if_pos hi]
  unfold runForcesSlices
  rw [runForcesFold_spec S P _ _ _ cols rows g s numW rngP htame' (List.range numW) f0 i,
    if_pos (slicesCover numW s.count i hW hpc hi)]
  have hsum : ((toPairs i (neighEntries S cols rows g s i)).map
      (serialPairTerm P (computeDensityPressure S P cols rows g s df0).1.dens
        (computeDensityPressure S P cols rows g s df0).1.press
        (computeDensityPressure S P cols rows g s df0).1.nearPress s)).sum
      = (((candidates cols rows g s i).filter
            (fun j => decide (i ≠ j ∧ dist2 s i j < H2))).map
          (parPressTerm S P (computeDensityPressure S P cols rows g s df0).1.dens
            (computeDensityPressure S P cols rows g s df0).1.press
            (computeDensityPressure S P cols rows g s df0).1.nearPress s i)).sum
        + (((candidates cols rows g s i).filter
            (fun j => decide (i ≠ j ∧ dist2 s i j < H2))).map
          (parViscTerm S P (computeDensityPressure S P cols rows g s df0).1.dens s i)).sum := by
    unfold toPairs
    rw [neighEntries_eq_map_filter, List.map_map, List.map_map]
    have hkey : ∀ j ∈ (candidates cols rows g s i).filter
          (fun j => decide (i ≠ j ∧ dist2 s i j < H2)),
        serialPairTerm P (computeDensityPressure S P cols rows g s df0).1.dens
            (computeDensityPressure S P cols rows g s df0).1.press
            (computeDensityPressure S P cols rows g s df0).1.nearPress s
            ⟨i, j, rOf S (dist2 s i j), qOf S (dist2 s i j)⟩
          = parPressTerm S P (computeDensityPressure S P cols rows g s df0).1.dens
              (computeDensityPressure S P cols rows g s df0).1.press
              (computeDensityPressure S P cols rows g s df0).1.nearPress s i j
            + parViscTerm S P (computeDensityPressure S P cols rows g s df0).1.dens s i j := by
      intro j hj
      rw [List.mem_filter, decide_eq_true_eq] at hj
      obtain ⟨hjc, hne, hH2⟩ := hj
      have ht := htame i hi j hjc hne hH2
      exact pairTerm_eq S P _ _ _ s i j ht.2.1 ht.2.2
    exact (congrArg List.sum (List.map_congr_left hkey)).trans (sum_map_add _ _ _)
  rw [hsum]
  unfold parForceVal baseForce
  abel

/-- Single-particle configuration (trivially tame: the only candidate
neighbor of particle 0 is itself, which the `i !== j` test skips). -/
def s1 : PState :=
  { px := fun _ => 10, py := fun _ => 10, pvx := fun _ => 0, pvy := fun _ => 0
    count := 1 }

theorem s1_tame (dens : ℕ → ℚ) : Tame SW PW dens 23 18 (gridList 23 18 s1) s1 := by
  intro i hi j hj hne _
  exfalso
  unfold candidates at hj
  rw [List.mem_flatMap] at hj
  obtain ⟨c, _, hjc⟩ := hj
  rw [mem_gridList] at hjc
  have hj0 : j = 0 := by
    have := hjc.1
    simp only [s1] at this
    omega
  have hi0 : i = 0 := by
    simp only [s1] at hi
    omega
  exact hne (hi0.trans hj0.symm)

theorem s1_nopairs : allPairs SW 23 18 (gridList 23 18 s1) s1 = [] := by
  rw [List.eq_nil_iff_forall_not_mem]
  intro e he
  obtain ⟨i, j, hi, hj, hne, _, _⟩ := allPairs_elim SW 23 18 (gridList 23 18 s1) s1 e he
  unfold candidates at hj
  rw [List.mem_flatMap] at hj
  obtain ⟨c, _, hjc⟩ := hj
  rw [mem_gridList] at hjc
  have hj0 : j = 0 := by
    have := hjc.1
    simp only [s1] at this
    omega
  have hi0 : i = 0 := by
    simp only [s1] at hi
    omega
  exact hne (hi0.trans hj0.symm)

/-- Witness for the amended C2 at a concrete one-particle configuration. -/
theorem serial_parallel_equiv_witness :
    computeForces SW PW [] (computeDensityPressure SW PW 23 18 (gridList 23 18 s1) s1 dfW).1
        (computeDensityPressure SW PW 23 18 (gridList 23 18 s1) s1 dfW).2 s1
        (fun _ => 0) (fun _ => (0, 0)) 0
      = applyCustomWallForces SW [] s1
          (runForcesSlices SW PW
            (runDensitySlices SW PW 23 18 (gridList 23 18 s1) s1 2 dfW).dens
            (runDensitySlices SW PW 23 18 (gridList 23 18 s1) s1 2 dfW).press
            (runDensitySlices SW PW 23 18 (gridList 23 18 s1) s1 2 dfW).nearPress
            23 18 (gridList 23 18 s1) s1 2 (fun _ _ => 0) (fun _ => (0, 0))) 0 := by
  have h := serial_parallel_equiv SW PW 23 18 (gridList 23 18 s1) s1 dfW []
    (fun _ => (0, 0)) (fun _ => 0) (fun _ _ => 0) 2 (by norm_num)
    (by norm_num [s1, MAX_PARTICLES])
    (s1_tame (computeDensityPressure SW PW 23 18 (gridList 23 18 s1) s1 dfW).1.dens)
    (by rw [s1_nopairs]; norm_num [MAX_NEIGHBORS, MAX_PARTICLES])
    0 (by norm_num [s1])
  exact h.2

/-! ### C2 counterexample: the two viscosity ceilings diverge

`PW2` raises VISC to 200 (a legal `setParams` value); for the two-particle
configuration `sW` the per-pair coefficient `visc·q/ρ = 3500/37 ≈ 94.6`
lands between the serial ceiling `500/7 ≈ 71.4` and the parallel ceiling
`107`, so with relative velocity 1000 the computed forces differ by
`(3500/37 - 500/7) · 1000 = 6000000/259 ≈ 23166` — far beyond any fixed
floating-point tolerance (the gap scales linearly with the velocity
difference). -/

def PW2 : Params :=
  { gasConst := 3000, nearGasConst := 5000, surfaceTension := 1000, visc := 200
    gravityX := 0, gravityY := 1200, width := 800, height := 600 }

theorem gridList_sW_zero : gridList 23 18 sW 0 = [1, 0] := by
  rw [gridList_eq]
  norm_num [sW, cellId, cellX, cellY, cellClamp, H, List.range_succ]

theorem gridList_sW_other : ∀ c, c ≠ 0 → gridList 23 18 sW c = [] := by
  intro c hc
  rw [gridList_eq]
  norm_num [sW, cellId, cellX, cellY, cellClamp, H, List.range_succ, Ne.symm hc]

theorem candidates_sW_zero : candidates 23 18 (gridList 23 18 sW) sW 0 = [1, 0] := by
  unfold candidates
  have hb : blockCells 23 18 (cellX 23 (sW.px 0)) (cellY 18 (sW.py 0)) = [0, 1, 23, 24] := by
    norm_num [sW, cellX, cellY, cellClamp, H, blockCells]
    rfl
  rw [hb]
  simp [gridList_sW_zero, gridList_sW_other]

theorem candidates_sW_one : candidates 23 18 (gridList 23 18 sW) sW 1 = [1, 0] := by
  unfold candidates
  have hb : blockCells 23 18 (cellX 23 (sW.px 1)) (cellY 18 (sW.py 1)) = [0, 1, 23, 24] := by
    norm_num [sW, cellX, cellY, cellClamp, H, blockCells]
    rfl
  rw [hb]
  simp [gridList_sW_zero, gridList_sW_other]

theorem neighEntries_sW_zero :
    neighEntries SW 23 18 (gridList 23 18 sW) sW 0 = [(1, 10, 5 / 7)] := by
  unfold neighEntries
  rw [candidates_sW_zero]
  norm_num [sW, SW, dist2, H2, H, rOf, qOf, List.filterMap_cons]

theorem neighEntries_sW_one :
    neighEntries SW 23 18 (gridList 23 18 sW) sW 1 = [(0, 10, 5 / 7)] := by
  unfold neighEntries
  rw [candidates_sW_one]
  norm_num [sW, SW, dist2, H2, H, rOf, qOf, List.filterMap_cons]

theorem allPairs_sW :
    allPairs SW 23 18 (gridList 23 18 sW) sW
      = [⟨0, 1, 10, 5 / 7⟩, ⟨1, 0, 10, 5 / 7⟩] := by
  unfold allPairs toPairs
  have hc : sW.count = 2 := rfl
  rw [hc, List.range_succ, List.range_succ]
  simp [neighEntries_sW_zero, neighEntries_sW_one]

theorem dens_sW_zero :
    (computeDensityPressure SW PW2 23 18 (gridList 23 18 sW) sW dfW).1.dens 0 = 74 / 49 := by
  rw [computeDensityPressure_fst]
  obtain ⟨h1, _, _, _⟩ := foldl_densWrite_spec SW PW2 23 18 (gridList 23 18 sW) sW
    (List.range sW.count) dfW 0
  rw [h1, if_pos (by norm_num [sW])]
  unfold densityAt
  rw [neighEntries_sW_zero]
  norm_num

/-- C2 counterexample: at the concrete two-particle configuration `sW` with
`VISC = 200`, the parallel path's x-force on particle 0 exceeds the serial
path's by exactly `6000000/259 ≈ 23166` — the hardcoded parallel viscosity
ceiling 107 admits the unclamped coefficient `3500/37 ≈ 94.6` that the
serial ceiling `500/7 ≈ 71.4` rejects, and the gap scales with the relative
velocity, so no fixed tolerance bounds it. -/
theorem serial_parallel_force_diverge :
    (applyCustomWallForces SW [] sW
        (runForcesSlices SW PW2
          (runDensitySlices SW PW2 23 18 (gridList 23 18 sW) sW 2 dfW).dens
          (runDensitySlices SW PW2 23 18 (gridList 23 18 sW) sW 2 dfW).press
          (runDensitySlices SW PW2 23 18 (gridList 23 18 sW) sW 2 dfW).nearPress
          23 18 (gridList 23 18 sW) sW 2 (fun _ _ => 0) (fun _ => (0, 0))) 0).1
      - (computeForces SW PW2 []
          (computeDensityPressure SW PW2 23 18 (gridList 23 18 sW) sW dfW).1
          (computeDensityPressure SW PW2 23 18 (gridList 23 18 sW) sW dfW).2 sW
          (fun _ => 0) (fun _ => (0, 0)) 0).1
      = 6000000 / 259
    ∧ (20000 : ℚ) < 6000000 / 259 := by
  refine ⟨?_, by norm_num⟩
  have hcap0 : (allPairs SW 23 18 (gridList 23 18 sW) sW).length ≤ MAX_NEIGHBORS := by
    rw [allPairs_sW]
    norm_num [MAX_NEIGHBORS, MAX_PARTICLES]
  have hcache : (computeDensityPressure SW PW2 23 18 (gridList 23 18 sW) sW dfW).2
      = allPairs SW 23 18 (gridList 23 18 sW) sW := by
    rw [computeDensityPressure_snd, List.take_of_length_le hcap0]
  have hnp : ∀ e ∈ allPairs SW 23 18 (gridList 23 18 sW) sW, ¬ e.nr < 1 / 1000 := by
    rw [allPairs_sW]
    intro e he
    simp only [List.mem_cons, List.not_mem_nil, or_false] at he
    rcases he with rfl | rfl <;> norm_num
  have hser : computeForces SW PW2 []
      (computeDensityPressure SW PW2 23 18 (gridList 23 18 sW) sW dfW).1
      (computeDensityPressure SW PW2 23 18 (gridList 23 18 sW) sW dfW).2 sW
      (fun _ => 0) (fun _ => (0, 0)) 0
      = baseForce SW PW2 [] sW 0
        + ((toPairs 0 (neighEntries SW 23 18 (gridList 23 18 sW) sW 0)).map
            (serialPairTerm PW2
              (computeDensityPressure SW PW2 23 18 (gridList 23 18 sW) sW dfW).1.dens
              (computeDensityPressure SW PW2 23 18 (gridList 23 18 sW) sW dfW).1.press
              (computeDensityPressure SW PW2 23 18 (gridList 23 18 sW) sW dfW).1.nearPress
              sW)).sum := by
    rw [hcache]
    exact computeForces_spec SW PW2 [] _ 23 18 (gridList 23 18 sW) sW
      (fun _ => 0) (fun _ => (0, 0)) 0 (by norm_num [sW]) hnp
  obtain ⟨e1, e2, e3, e4⟩ := densityFields_funext SW PW2 23 18 (gridList 23 18 sW) sW dfW 2
    (by norm_num) (by norm_num [sW, MAX_PARTICLES])
  have htame' : ∀ i' < sW.count, ∀ j ∈ candidates 23 18 (gridList 23 18 sW) sW i',
      i' ≠ j → dist2 sW i' j < H2 → ¬ dist2 sW i' j < 1 / 10000 := by
    intro i' hi' j hj hne _
    have h2 : i' = 0 ∨ i' = 1 := by
      simp only [sW] at hi'
      omega
    rcases h2 with rfl | rfl
    · rw [candidates_sW_zero] at hj
      rcases (by simpa using hj : j = 1 ∨ j = 0) with rfl | rfl
      · norm_num [dist2, sW]
      · exact absurd rfl hne
    · rw [candidates_sW_one] at hj
      rcases (by simpa using hj : j = 1 ∨ j = 0) with rfl | rfl
      · exact absurd rfl hne
      · norm_num [dist2, sW]
  have hcov := slicesCover 2 sW.count 0 (by norm_num) (by norm_num [sW, MAX_PARTICLES])
    (by norm_num [sW])
  have hpar : applyCustomWallForces SW [] sW
      (runForcesSlices SW PW2
        (runDensitySlices SW PW2 23 18 (gridList 23 18 sW) sW 2 dfW).dens
        (runDensitySlices SW PW2 23 18 (gridList 23 18 sW) sW 2 dfW).press
        (runDensitySlices SW PW2 23 18 (gridList 23 18 sW) sW 2 dfW).nearPress
        23 18 (gridList 23 18 sW) sW 2 (fun _ _ => 0) (fun _ => (0, 0))) 0
      = parForceVal SW PW2
          (runDensitySlices SW PW2 23 18 (gridList 23 18 sW) sW 2 dfW).dens
          (runDensitySlices SW PW2 23 18 (gridList 23 18 sW) sW 2 dfW).press
          (runDensitySlices SW PW2 23 18 (gridList 23 18 sW) sW 2 dfW).nearPress
          23 18 (gridList 23 18 sW) sW 0
        + customWalls SW [] (sW.px 0) (sW.py 0) := by
    rw [applyCustomWallForces_spec, if_pos (by norm_num [sW])]
    unfold runForcesSlices
    rw [runForcesFold_spec SW PW2 _ _ _ 23 18 (gridList 23 18 sW) sW 2 (fun _ _ => 0)
      htame' (List.range 2) (fun _ => (0, 0)) 0, if_pos hcov]
  rw [hser, hpar, ← e1, ← e3, ← e4]
  have hfilter : (candidates 23 18 (gridList 23 18 sW) sW 0).filter
      (fun j => decide (0 ≠ j ∧ dist2 sW 0 j < H2)) = [1] := by
    rw [candidates_sW_zero]
    norm_num [dist2, sW, H2, H]
  unfold parForceVal
  rw [hfilter, neighEntries_sW_zero]
  unfold toPairs
  simp only [List.map_cons, List.map_nil, List.sum_cons, List.sum_nil]
  unfold serialPairTerm parPressTerm parViscTerm pairPressForce viscCoefSerial
    viscCoefParallel baseForce wallBoundary customWalls rOf
  dsimp only
  rw [dens_sW_zero]
  norm_num [sW, SW, dist2, H, H2, DT, SUBSTEPS, PW2]
  ring_nf

/-- C3 (amended): the serial viscosity coefficient is
`min(visc·q/density, 0.5/(DT/SUBSTEPS))` with `0.5/(DT/SUBSTEPS) = 500/7`
(substep time step `0.014/2`), but the parallel path clamps to the hardcoded
constant `107` (which is `0.5/(0.014/3)`, a three-substep time step); the two
coefficients agree exactly when the unclamped value `visc·q/density` is at
most `500/7`. -/
theorem viscCoef_spec (visc q dens : ℚ) :
    viscCoefSerial visc q dens = min (visc * q / dens) (1 / 2 / (DT / SUBSTEPS))
    ∧ (1 : ℚ) / 2 / (DT / SUBSTEPS) = 500 / 7
    ∧ viscCoefParallel visc q dens = min (visc * q / dens) 107
    ∧ (viscCoefSerial visc q dens = viscCoefParallel visc q dens
        ↔ visc * q / dens ≤ 500 / 7) := by
  have hDT : (1 : ℚ) / 2 / (DT / SUBSTEPS) = 500 / 7 := by
    norm_num [DT, SUBSTEPS]
  refine ⟨rfl, hDT, rfl, ?_⟩
  unfold viscCoefSerial viscCoefParallel
  rw [hDT]
  constructor
  · intro h
    by_contra hx
    push_neg at hx
    rw [min_eq_right hx.le] at h
    have h107 : (500 : ℚ) / 7 < min (visc * q / dens) 107 := lt_min hx (by norm_num)
    rw [← h] at h107
    exact lt_irrefl _ h107
  · intro hx
    rw [min_eq_left hx, min_eq_left (hx.trans (by norm_num))]

/-- C3 counterexample: at `visc = 200`, `q = 5/7`, `density = 74/49` (the
values realised by the `sW` configuration with `PW2`), the unclamped
coefficient is `3500/37 ≈ 94.6`; the parallel coefficient is not the
spec's `min(visc·q/density, 0.5/(DT/SUBSTEPS))`, and serial and parallel
coefficients differ. -/
theorem viscCoef_counterexample :
    viscCoefParallel 200 (5 / 7) (74 / 49)
        ≠ min (200 * (5 / 7) / (74 / 49)) (1 / 2 / (DT / SUBSTEPS))
    ∧ viscCoefSerial 200 (5 / 7) (74 / 49) ≠ viscCoefParallel 200 (5 / 7) (74 / 49) := by
  constructor <;> norm_num [viscCoefParallel, viscCoefSerial, DT, SUBSTEPS]

/-- C4 (amended): the directed pressure-plus-cohesion contributions of an
unordered pair are equal in magnitude and opposite in direction provided the
two particles' densities coincide — the formula divides by the receiving
particle's density, so the antisymmetry claimed by the spec holds exactly on
equal-density pairs. The j-directed call swaps the pressure and
near-pressure arguments and negates the separation vector. -/
theorem pairPressForce_antisymmetric (P : Params)
    (densI densJ pressI pressJ nearPressI nearPressJ q dx dy invR : ℚ)
    (hd : densI = densJ) :
    pairPressForce P densI pressI pressJ nearPressI nearPressJ q dx dy invR
      = - pairPressForce P densJ pressJ pressI nearPressJ nearPressI q (-dx) (-dy) invR := by
  subst hd
  unfold pairPressForce
  apply Prod.ext <;> simp only [Prod.fst_neg, Prod.snd_neg] <;> ring

theorem pairPressForce_antisymmetric_witness :
    pairPressForce PW 1 7 7 0 0 (1 / 2) 1 0 1
      = - pairPressForce PW 1 7 7 0 0 (1 / 2) (-1) 0 1 :=
  pairPressForce_antisymmetric PW 1 1 7 7 0 0 (1 / 2) 1 0 1 rfl

/-! ### Drain removal (physics-worker.js lines 1199-1218)

The drain loop walks indices downward from `particleCount - 1`; a captured
particle is removed by decrementing `particleCount` and, when the freed last
slot differs from the current index, copying the last live particle's whole
per-index state (position, velocity, frozen flag, teleport cooldown) into the
current slot. -/

/-- The per-index particle state the drain loop moves as a unit. -/
structure Part where
  x : ℚ
  y : ℚ
  vx : ℚ
  vy : ℚ
  frozen : Bool
  cd : ℚ

/-- A drain region (`drain.x`, `drain.y`, `drain.radius`). -/
structure Drain where
  dx : ℚ
  dy : ℚ
  radius : ℚ

/-- A particle store with its live count. -/
structure World where
  parts : ℕ → Part
  count : ℕ

/-- `dx*dx + dy*dy < radius*radius` — the capture test of line 1206. -/
def captured (dr : Drain) (p : Part) : Bool :=
  decide ((p.x - dr.dx) * (p.x - dr.dx) + (p.y - dr.dy) * (p.y - dr.dy)
    < dr.radius * dr.radius)

/-- One iteration of the drain loop at index `i`: on capture, decrement the
count and (when `i` is below the new count) move the last live particle into
slot `i` (physics-worker.js lines 1206-1216). -/
def drainStep (dr : Drain) (i : ℕ) (w : World) : World :=
  if captured dr (w.parts i) then
    { parts := if i < w.count - 1
        then Function.update w.parts i (w.parts (w.count - 1))
        else w.parts,
      count := w.count - 1 }
  else w

/-- The downward loop `for (let i = particleCount - 1; i >= 0; i--)`:
`drainLoop dr i w` runs the body at indices `i-1, i-2, …, 0`. -/
def drainLoop (dr : Drain) : ℕ → World → World
  | 0, w => w
  | i + 1, w => drainLoop dr i (drainStep dr i w)

/-- A full single drain invocation over the current particle set. -/
def drainRun (dr : Drain) (w : World) : World :=
  drainLoop dr w.count w

/-- The live particles in index order. -/
def liveList (w : World) : List Part :=
  (List.range w.count).map w.parts

theorem drainLoop_spec (dr : Drain) (i : ℕ) :
    ∀ w : World, i ≤ w.count →
    (drainLoop dr i w).count
        = w.count - ((List.range i).filter (fun j => captured dr (w.parts j))).length
    ∧ (((List.range (drainLoop dr i w).count).map (drainLoop dr i w).parts : List Part)
          : Multiset Part)
        = (((List.range i).map w.parts).filter (fun p => ! captured dr p) : List Part)
          + ((List.range' i (w.count - i)).map w.parts : List Part) := by
  induction i with
  | zero =>
    intro w _
    refine ⟨by simp [drainLoop], ?_⟩
    simp only [drainLoop, List.range_zero, List.map_nil, List.filter_nil,
      Nat.sub_zero]
    rw [List.range_eq_range']
    simp
  | succ i ih =>
    intro w h
    have hlt : i < w.count := h
    have hstep : drainLoop dr (i + 1) w = drainLoop dr i (drainStep dr i w) := rfl
    by_cases hcap : captured dr (w.parts i) = true
    · -- captured: the count drops and slot `w.count - 1` may move down into `i`
      have hw' : drainStep dr i w
          = { parts := if i < w.count - 1
                then Function.update w.parts i (w.parts (w.count - 1))
                else w.parts,
              count := w.count - 1 } := by
        rw [drainStep, if_pos hcap]
      have hone : (List.filter (fun j => captured dr (w.parts j)) [i]).length = 1 := by
        simp [List.filter_cons, hcap]
      have hdrop : ([w.parts i].filter (fun p => ! captured dr p)) = [] := by
        simp [List.filter_cons, hcap]
      have hlen : ((List.range i).filter
          (fun j => captured dr (w.parts j))).length ≤ i := by
        calc ((List.range i).filter (fun j => captured dr (w.parts j))).length
            ≤ (List.range i).length := List.length_filter_le _ _
          _ = i := List.length_range i
      by_cases hend : i < w.count - 1
      · -- the freed last slot lies above `i`: its particle moves into slot `i`
        have hw'' : drainStep dr i w
            = { parts := Function.update w.parts i (w.parts (w.count - 1)),
                count := w.count - 1 } := by
          rw [hw', if_pos hend]
        obtain ⟨ihc, ihm⟩ := ih (drainStep dr i w) (by rw [hw'']; exact hend.le)
        rw [hstep, hw'']
        rw [hw''] at ihc ihm
        dsimp only at ihc ihm
        have hfilter_eq : (List.range i).filter
            (fun j => captured dr (Function.update w.parts i (w.parts (w.count - 1)) j))
            = (List.range i).filter (fun j => captured dr (w.parts j)) := by
          apply List.filter_congr
          intro j hj
          rw [Function.update_noteq (Nat.ne_of_lt (List.mem_range.mp hj)) _ _]
        have hmap_eq : (List.range i).map
            (Function.update w.parts i (w.parts (w.count - 1)))
            = (List.range i).map w.parts := by
          apply List.map_congr_left
          intro j hj
          exact Function.update_noteq (Nat.ne_of_lt (List.mem_range.mp hj)) _ _
        constructor
        · rw [ihc, hfilter_eq, List.range_succ, List.filter_append,
            List.length_append, hone]
          omega
        · rw [ihm, hmap_eq]
          have hreg : List.range' i (w.count - 1 - i)
              = i :: List.range' (i + 1) (w.count - 2 - i) := by
            have h2 : w.count - 1 - i = (w.count - 2 - i) + 1 := by omega
            rw [h2, List.range'_succ]
          have hreg2 : List.range' (i + 1) (w.count - (i + 1))
              = List.range' (i + 1) (w.count - 2 - i) ++ [w.count - 1] := by
            have h3 : w.count - (i + 1) = (w.count - 2 - i) + 1 := by omega
            rw [h3, List.range'_concat]
            have h4 : i + 1 + 1 * (w.count - 2 - i) = w.count - 1 := by omega
            rw [h4]
          have hmap_hi : (List.range' (i + 1) (w.count - 2 - i)).map
              (Function.update w.parts i (w.parts (w.count - 1)))
              = (List.range' (i + 1) (w.count - 2 - i)).map w.parts := by
            apply List.map_congr_left
            intro j hj
            have hj1 := (List.mem_range'_1.mp hj).1
            exact Function.update_noteq (by omega) _ _
          rw [hreg, List.map_cons, Function.update_same, hmap_hi]
          rw [List.range_succ, List.map_append, List.filter_append,
            List.map_cons, List.map_nil, hdrop, List.append_nil, hreg2,
            List.map_append]
          have hperm : ((w.parts (w.count - 1)
                :: (List.range' (i + 1) (w.count - 2 - i)).map w.parts : List Part)
                  : Multiset Part)
              = (((List.range' (i + 1) (w.count - 2 - i)).map w.parts
                  ++ [w.parts (w.count - 1)] : List Part) : Multiset Part) :=
            Multiset.coe_eq_coe.mpr (List.perm_append_singleton _ _).symm
          rw [hperm]
          rfl
      · -- the captured particle was the last live one: no move
        have hieq : i = w.count - 1 := by omega
        have hw'' : drainStep dr i w = { parts := w.parts, count := w.count - 1 } := by
          rw [hw', if_neg hend]
        obtain ⟨ihc, ihm⟩ := ih (drainStep dr i w)
          (by rw [hw'']; show i ≤ w.count - 1; omega)
        rw [hstep, hw'']
        rw [hw''] at ihc ihm
        dsimp only at ihc ihm
        constructor
        · rw [ihc, List.range_succ, List.filter_append, List.length_append, hone]
          omega
        · rw [ihm]
          have hz1 : w.count - 1 - i = 0 := by omega
          have hz2 : w.count - (i + 1) = 0 := by omega
          rw [hz1, hz2, List.range_succ, List.map_append, List.filter_append,
            List.map_cons, List.map_nil, hdrop]
          simp
    · -- not captured: the state is unchanged and the particle survives in place
      have hw' : drainStep dr i w = w := by
        rw [drainStep, if_neg hcap]
      obtain ⟨ihc, ihm⟩ := ih (drainStep dr i w) (by rw [hw']; exact hlt.le)
      rw [hstep, hw']
      rw [hw'] at ihc ihm
      have hzero : (List.filter (fun j => captured dr (w.parts j)) [i]).length = 0 := by
        simp [List.filter_cons, hcap]
      have hkeep : ([w.parts i].filter (fun p => ! captured dr p)) = [w.parts i] := by
        simp [List.filter_cons, hcap]
      constructor
      · rw [ihc, List.range_succ, List.filter_append, List.length_append, hzero]
        omega
      · rw [ihm]
        have hreg : List.range' i (w.count - i)
            = i :: List.range' (i + 1) (w.count - (i + 1)) := by
          have h2 : w.count - i = (w.count - (i + 1)) + 1 := by omega
          rw [h2, List.range'_succ]
        rw [hreg, List.map_cons, List.range_succ, List.map_append,
          List.filter_append, List.map_cons, List.map_nil, hkeep]
        rw [Multiset.coe_add, Multiset.coe_add, List.append_assoc,
          List.singleton_append]

/-- C7: a single drain invocation removes exactly the particles inside the
drain radius: the live count drops by the number of captured particles, and
the surviving particles are, as a multiset (order is not preserved), exactly
the non-captured originals with position, velocity, frozen flag and teleport
cooldown unchanged. -/
theorem drain_spec (dr : Drain) (w : World) :
    (drainRun dr w).count
        = w.count - ((liveList w).filter (fun p => captured dr p)).length
    ∧ ((liveList (drainRun dr w) : List Part) : Multiset Part)
        = ((liveList w).filter (fun p => ! captured dr p) : List Part) := by
  obtain ⟨hc, hm⟩ := drainLoop_spec dr w.count w le_rfl
  constructor
  · rw [drainRun, hc, liveList, List.filter_map, List.length_map]
    rfl
  · rw [drainRun, liveList, liveList, hm, List.filter_map]
    simp

/-! ### Particle creation and capacity guards

`addLoop` is the `addParticles` loop (physics-worker.js lines 1283-1295):
each iteration breaks when `particleCount >= MAX_PARTICLES`, otherwise writes
a fresh particle at index `particleCount` and increments the count. The
payload written (position/velocity, randomised in the source) is abstracted
as a generator `g`, since it never influences the count. `emitLoop` is the
emitter `while` loop (lines 1256-1270) with an explicit fuel bound on the
number of iterations the source's terminating loop performs. -/

def addLoop (g : ℕ → Part) : ℕ → World → World
  | 0, w => w
  | n + 1, w =>
      if MAX_PARTICLES ≤ w.count then w
      else addLoop g n
        { parts := Function.update w.parts w.count (g n), count := w.count + 1 }

def emitLoop (g : ℕ → Part) : ℕ → ℚ → ℚ → World → ℚ × World
  | 0, timer, _, w => (timer, w)
  | f + 1, timer, interval, w =>
      if interval ≤ timer ∧ w.count < MAX_PARTICLES then
        emitLoop g f (timer - interval) interval
          { parts := Function.update w.parts w.count (g f), count := w.count + 1 }
      else (timer, w)

/-- The particle-creating and -destroying operations of the message loop:
`addParticles`, one emitter's spawn loop in `processEmitters`, one drain
invocation, and `reset` (which zeroes the count and adds 1800 particles). -/
inductive SpawnOp where
  | addP (n : ℕ) (g : ℕ → Part)
  | emit (fuel : ℕ) (timer interval : ℚ) (g : ℕ → Part)
  | drainOp (dr : Drain)
  | reset (g : ℕ → Part)

def applyOp : SpawnOp → World → World
  | .addP n g, w => addLoop g n w
  | .emit fuel timer interval g, w => (emitLoop g fuel timer interval w).2
  | .drainOp dr, w => drainRun dr w
  | .reset g, w => addLoop g 1800 { parts := w.parts, count := 0 }

theorem addLoop_le (g : ℕ → Part) (n : ℕ) :
    ∀ w : World, w.count ≤ MAX_PARTICLES → (addLoop g n w).count ≤ MAX_PARTICLES := by
  induction n with
  | zero => intro w h; exact h
  | succ n ih =>
    intro w h
    rw [addLoop]
    by_cases hc : MAX_PARTICLES ≤ w.count
    · rw [if_pos hc]; exact h
    · rw [if_neg hc]
      exact ih _ (by dsimp only; omega)

theorem emitLoop_le (g : ℕ → Part) (fuel : ℕ) :
    ∀ (timer interval : ℚ) (w : World), w.count ≤ MAX_PARTICLES →
      (emitLoop g fuel timer interval w).2.count ≤ MAX_PARTICLES := by
  induction fuel with
  | zero => intro timer interval w h; exact h
  | succ f ih =>
    intro timer interval w h
    rw [emitLoop]
    by_cases hc : interval ≤ timer ∧ w.count < MAX_PARTICLES
    · rw [if_pos hc]
      exact ih _ _ _ (by dsimp only; omega)
    · rw [if_neg hc]; exact h

theorem drainRun_count_le (dr : Drain) (w : World) :
    (drainRun dr w).count ≤ w.count := by
  obtain ⟨hc, _⟩ := drainLoop_spec dr w.count w le_rfl
  rw [drainRun, hc]
  exact Nat.sub_le _ _

theorem applyOp_le (op : SpawnOp) (w : World) (h : w.count ≤ MAX_PARTICLES) :
    (applyOp op w).count ≤ MAX_PARTICLES := by
  cases op with
  | addP n g => exact addLoop_le g n w h
  | emit fuel timer interval g => exact emitLoop_le g fuel timer interval w h
  | drainOp dr => exact le_trans (drainRun_count_le dr w) h
  | reset g => exact addLoop_le g 1800 _ (Nat.zero_le _)

/-- C8: across every sequence of particle-creating or -destroying operations
(`addParticles` commands, emitter spawn loops, drain invocations, `reset`),
the live count stays at most `MAX_PARTICLES = 10000`; it is a natural number
in the model, and its only decrements occur in the drain loop, which by
`drainLoop_spec` removes exactly the captured particles (at most the current
count), so it never goes negative. -/
theorem particleCount_invariant (w : World) (h : w.count ≤ MAX_PARTICLES) :
    ∀ ops : List SpawnOp,
      (ops.foldl (fun w1 op => applyOp op w1) w).count ≤ MAX_PARTICLES := by
  intro ops
  induction ops generalizing w with
  | nil => exact h
  | cons op t ih => exact ih _ (applyOp_le op w h)

def pD : Part := ⟨0, 0, 0, 0, false, 0⟩

def W8 : World := { parts := fun _ => pD, count := 2 }

def drW : Drain := ⟨0, 0, 5⟩

theorem particleCount_invariant_witness :
    W8.count ≤ MAX_PARTICLES
    ∧ (([SpawnOp.addP 3 (fun _ => pD), SpawnOp.drainOp drW,
          SpawnOp.reset (fun _ => pD)].foldl
        (fun w1 op => applyOp op w1) W8).count ≤ MAX_PARTICLES) :=
  ⟨by norm_num [W8, MAX_PARTICLES],
   particleCount_invariant W8 (by norm_num [W8, MAX_PARTICLES]) _⟩

/-! ### Capacity-full drops (C10) -/

/-- The foam arrays and count. -/
structure FoamWorld where
  fmx : ℕ → ℚ
  fmy : ℕ → ℚ
  fmvx : ℕ → ℚ
  fmvy : ℕ → ℚ
  fmlife : ℕ → ℚ
  fmsize : ℕ → ℚ
  foamCount : ℕ

/-- The foam-burst loop of `createExplosion` (physics-worker.js lines
1425-1435): `for (let i = 0; i < 15 && foamCount < MAX_FOAM; i++)`, writing
the six foam arrays at `foamCount` (payload abstracted as `gf`) and
incrementing the count. -/
def foamSpawn (gf : ℕ → ℚ × ℚ × ℚ × ℚ × ℚ × ℚ) : ℕ → FoamWorld → FoamWorld
  | 0, fw => fw
  | i + 1, fw =>
      if fw.foamCount < MAX_FOAM then
        foamSpawn gf i
          { fmx := Function.update fw.fmx fw.foamCount (gf i).1,
            fmy := Function.update fw.fmy fw.foamCount (gf i).2.1,
            fmvx := Function.update fw.fmvx fw.foamCount (gf i).2.2.1,
            fmvy := Function.update fw.fmvy fw.foamCount (gf i).2.2.2.1,
            fmlife := Function.update fw.fmlife fw.foamCount (gf i).2.2.2.2.1,
            fmsize := Function.update fw.fmsize fw.foamCount (gf i).2.2.2.2.2,
            foamCount := fw.foamCount + 1 }
      else fw

def explosionFoamBurst (gf : ℕ → ℚ × ℚ × ℚ × ℚ × ℚ × ℚ) (fw : FoamWorld) : FoamWorld :=
  foamSpawn gf 15 fw

/-- The `addRigidBody` handler's capacity guard (physics-worker.js line
1651): `if (rigidBodies.length >= MAX_RIGID_BODIES) break;` before the push. -/
def addRigidBodyCmd (rbs : List RBody) (rb : RBody) : List RBody :=
  if MAX_RIGID_BODIES ≤ rbs.length then rbs else rbs ++ [rb]

theorem foamSpawn_full (gf : ℕ → ℚ × ℚ × ℚ × ℚ × ℚ × ℚ) (fw : FoamWorld)
    (hfoam : MAX_FOAM ≤ fw.foamCount) :
    ∀ i : ℕ, foamSpawn gf i fw = fw := by
  intro i
  cases i with
  | zero => rfl
  | succ i => rw [foamSpawn, if_neg (by omega)]

/-- C10: when a capacity-bounded buffer is full, the creating operation
silently drops the new entity and leaves all existing state unchanged: at
`particleCount = MAX_PARTICLES` the `addParticles` loop and the emitter spawn
loop change nothing (the emitter's timer is also untouched by the loop), at
20 rigid bodies `addRigidBody` returns before constructing the body, and at
`foamCount = MAX_FOAM` the explosion foam burst writes nothing. -/
theorem capacity_full_drops (g : ℕ → Part) (gf : ℕ → ℚ × ℚ × ℚ × ℚ × ℚ × ℚ)
    (n fuel : ℕ) (timer interval : ℚ) (w : World) (rbs : List RBody) (rb : RBody)
    (fw : FoamWorld)
    (hpc : MAX_PARTICLES ≤ w.count) (hrb : MAX_RIGID_BODIES ≤ rbs.length)
    (hfoam : MAX_FOAM ≤ fw.foamCount) :
    addLoop g n w = w
    ∧ emitLoop g fuel timer interval w = (timer, w)
    ∧ addRigidBodyCmd rbs rb = rbs
    ∧ explosionFoamBurst gf fw = fw := by
  refine ⟨?_, ?_, ?_, ?_⟩
  · cases n with
    | zero => rfl
    | succ n => rw [addLoop, if_pos hpc]
  · cases fuel with
    | zero => rfl
    | succ f =>
      rw [emitLoop, if_neg]
      rintro ⟨-, h2⟩
      omega
  · rw [addRigidBodyCmd, if_pos hrb]
  · exact foamSpawn_full gf fw hfoam 15

def rbD : RBody := ⟨0, 0, 0, 0, 50, 10⟩

def WFull : World := { parts := fun _ => pD, count := MAX_PARTICLES }

def fwFull : FoamWorld :=
  { fmx := fun _ => 0, fmy := fun _ => 0, fmvx := fun _ => 0, fmvy := fun _ => 0,
    fmlife := fun _ => 0, fmsize := fun _ => 0, foamCount := MAX_FOAM }

theorem capacity_full_drops_witness :
    (MAX_PARTICLES ≤ WFull.count
      ∧ MAX_RIGID_BODIES ≤ (List.replicate 20 rbD).length
      ∧ MAX_FOAM ≤ fwFull.foamCount)
    ∧ (addLoop (fun _ => pD) 5 WFull = WFull
      ∧ emitLoop (fun _ => pD) 3 1 (1 / 2) WFull = (1, WFull)
      ∧ addRigidBodyCmd (List.replicate 20 rbD) rbD = List.replicate 20 rbD
      ∧ explosionFoamBurst (fun _ => (0, 0, 0, 0, 0, 0)) fwFull = fwFull) :=
  ⟨⟨le_refl _, by simp [MAX_RIGID_BODIES], le_refl _⟩,
   capacity_full_drops (fun _ => pD) (fun _ => (0, 0, 0, 0, 0, 0)) 5 3 1 (1 / 2)
     WFull (List.replicate 20 rbD) rbD fwFull (le_refl _)
     (by simp [MAX_RIGID_BODIES]) (le_refl _)⟩

/-- C4 counterexample: with unequal densities (1 vs 2) and otherwise
symmetric pair data, the two directed contributions are not opposite —
the claim's "for all density values" fails. -/
theorem pairPressForce_not_antisymmetric :
    pairPressForce PW 1 7 7 0 0 (1 / 2) 1 0 1
      ≠ - pairPressForce PW 2 7 7 0 0 (1 / 2) (-1) 0 1 := by
  intro h
  have h1 := congrArg Prod.fst h
  norm_num [pairPressForce, PW] at h1

end SPH
